import Mathlib

/-! TurksHead

A shallow embedding of `src/TurksHead/TurksHead.cpp` and the properties of the
knot model that are checked against it.

Conventions of the embedding

* `int` is `Int`.  Signed overflow is undefined in C++, so no behaviour of the
  source is modelled beyond the 32 bit range: `construct` and
  `computeKnownAltitudes` use the mathematical arithmetic, and they are the
  source's functions for the parameters with
  `20 * (2 * leads * bights + 1) ≤ 2 ^ 31 - 1`, where the product
  `2 * m_leads * m_bights * s_stepsTheta`, the loop bound
  `2 * m_leads * m_bights + 1` and every key `i * s_stepsTheta` stay inside the
  range.  The lemmas about the closed forms `constructed` and `recordedAltitudes`
  hold for all integers; the theorems C1, C2, C4, C15, C16 and C17, which say for
  all `leads` and `bights` what the table, the altitude or `m_maxThetaOnPath` is,
  carry the bound as a hypothesis (C2 and C15 the bound
  `2 * leads * bights * 20 ≤ 2 ^ 31 - 1` of the product alone).  `/` and `%` on
  `int` truncate toward zero (`Int.tdiv`, `Int.tmod`); a zero divisor is the
  failure `DivisionByZero`.
* `double` (and the `float` of `getAltitude`) is an ordered field `α` with a
  floor function: rounding is not modelled.  `<cmath>` is a record `CMath α`
  handed to the functions that call it.
* `std::map<int, int>` is the list of its entries in increasing key order; an
  iterator is a position in that list (`begin()` is `0`, `end()` the length).
* The Cairo context `m_ctx` is the log of the calls made on it, threaded
  through the drawing functions.
* A failed `assert` stops the program: `Except.error InternalInvariantViolation`.
-/

set_option linter.dupNamespace false

namespace TurksHead

/-- Ways in which a run stops without a result.  `InvalidParameters` is the
error kind of the written specification; no statement of the source raises it.
`InternalInvariantViolation` is a failed `assert` of `getAltitude`.
`DivisionByZero` is an integer `/` or `%` with divisor zero. -/
inductive Failure where
  | InvalidParameters
  | InternalInvariantViolation
  | DivisionByZero
  deriving DecidableEq, Repr

/-- Calls made on the `Cairo::Context`. -/
inductive Cmd (α : Type) where
  | save
  | restore
  | rotate (angle : α)
  | move_to (x y : α)
  | line_to (x y : α)
  | close_path
  | fill
  | set_source_rgb (r g b : α)
  deriving DecidableEq, Repr

/-- Log of the calls made on the context, oldest first. -/
abbrev Canvas (α : Type) := List (Cmd α)

/-- Functions and constant of `<cmath>` used by the program
(`cos`, `sin`, `std::sqrt`, `M_PI`). -/
structure CMath (α : Type) where
  cos : α → α
  sin : α → α
  sqrt : α → α
  pi : α

/-- Data members of `class TurksHead` read or written by the source file. -/
structure TurksHead (α : Type) where
  m_leads : Int
  m_bights : Int
  m_paths : Int
  m_maxThetaOnPath : Int
  m_radius : α
  m_deltaRadius : α
  m_lineWidth : α
  m_knownAltitudes : List (Int × Int)

/-- Value of `const int TurksHead::s_stepsTheta = 20;`. -/
def s_stepsTheta : Int := 20

/-- Values taken by `i` in `for( int i = lo; i <= hi; ++i )`, in order. -/
def intRange (lo hi : Int) : List Int :=
  List.map (fun (k : Nat) => lo + (k : Int)) (List.range (hi + 1 - lo).toNat)

/-- Effect of `m[ k ] = v` on a `std::map<int, int>`: the entry is inserted at
its place in key order, or overwritten when the key is present. -/
def mapAssign : List (Int × Int) → Int → Int → List (Int × Int)
  | [], k, v => [(k, v)]
  | e :: es, k, v =>
    if k < e.1 then (k, v) :: e :: es
    else if k = e.1 then (k, v) :: es
    else e :: mapAssign es k v

/-- Position returned by `std::map::lower_bound( theta )`: the first entry whose
key is not less than `theta`, the length of the list when there is none. -/
def lower_bound : List (Int × Int) → Int → Nat
  | [], _ => 0
  | e :: es, theta => if e.1 < theta then lower_bound es theta + 1 else 0

/-- Body of the loop of `computeKnownAltitudes` on the pair
(`m_knownAltitudes`, `alt`), for one value of `i`. -/
def altitudeStep (leads : Int) (st : List (Int × Int) × Int) (i : Int) :
    Except Failure (List (Int × Int) × Int) :=
  if leads = 0 then Except.error Failure.DivisionByZero
  else if Int.tmod i leads ≠ 0 then
    Except.ok (mapAssign st.1 (i * s_stepsTheta) st.2, st.2 * (-1))
  else Except.ok st

/-- Embedding of `TurksHead::computeKnownAltitudes`.  The loop bound
`2 * m_leads * m_bights + 1` and the keys `i * s_stepsTheta` are `int` values in the
source; they are the values computed here as long as
`20 * (2 * m_leads * m_bights + 1) ≤ 2 ^ 31 - 1`.  Beyond that bound the source
overflows (undefined behaviour) and this definition does not describe it. -/
def computeKnownAltitudes {α : Type} (m : TurksHead α) : Except Failure (TurksHead α) :=
  ((intRange (-1) (2 * m.m_leads * m.m_bights + 1)).foldlM
      (altitudeStep m.m_leads) (m.m_knownAltitudes, (-1 : Int))).map
    (fun st => { m with m_knownAltitudes := st.1 })

/-- Embedding of the constructor `TurksHead::TurksHead`: the member initialisers
in order, then the body.  `m_maxThetaOnPath` is the source's `int` value as long as
`2 * leads * bights * s_stepsTheta ≤ 2 ^ 31 - 1`; beyond that bound the source
overflows (undefined behaviour) and this definition does not describe it. -/
def construct {α : Type} [LinearOrderedField α]
    (leads bights : Int) (innerRadius outerRadius lineWidth : α) :
    Except Failure (TurksHead α) :=
  let paths : Int := (Int.gcd bights leads : Int)
  if paths = 0 then Except.error Failure.DivisionByZero
  else
    computeKnownAltitudes
      { m_leads := leads
        m_bights := bights
        m_paths := paths
        m_maxThetaOnPath := Int.tdiv (2 * leads * bights * s_stepsTheta) paths
        m_radius := (innerRadius + outerRadius) / 2
        m_deltaRadius := (outerRadius - innerRadius - lineWidth) / 2
        m_lineWidth := lineWidth
        m_knownAltitudes := [] }

/-- Embedding of `TurksHead::getAltitude`.  The last branch of the `match` is
never taken: both positions are inside the list once the two assertions hold. -/
def getAltitude {α : Type} [LinearOrderedField α] (m : TurksHead α) (theta : Int) :
    Except Failure α :=
  let nextIt := lower_bound m.m_knownAltitudes theta
  if nextIt = 0 then Except.error Failure.InternalInvariantViolation
  else if nextIt = m.m_knownAltitudes.length then
    Except.error Failure.InternalInvariantViolation
  else
    match m.m_knownAltitudes[nextIt - 1]?, m.m_knownAltitudes[nextIt]? with
    | some prevE, some nextE =>
      Except.ok ((prevE.2 : α)
        + (((nextE.2 - prevE.2) * (theta - prevE.1) : Int) : α)
          / ((nextE.1 - prevE.1 : Int) : α))
    | _, _ => Except.error Failure.InternalInvariantViolation

/-- Embedding of `TurksHead::angleFromTheta`. -/
def angleFromTheta {α : Type} [LinearOrderedField α] (M : CMath α) (m : TurksHead α)
    (theta : Int) : α :=
  M.pi * (theta : α) / (m.m_bights : α) / (s_stepsTheta : α)

/-- Embedding of `TurksHead::getRadius`. -/
def getRadius {α : Type} [LinearOrderedField α] (M : CMath α) (m : TurksHead α)
    (theta : Int) : α :=
  m.m_radius
    + m.m_deltaRadius * M.cos ((m.m_bights : α) * angleFromTheta M m theta / (m.m_leads : α))

/-- Embedding of `TurksHead::convertRadialToCartesianCoordinates`. -/
def convertRadialToCartesianCoordinates {α : Type} [LinearOrderedField α] (M : CMath α)
    (m : TurksHead α) (radius : α) (theta : Int) : α × α :=
  (radius * M.cos (angleFromTheta M m theta), radius * M.sin (angleFromTheta M m theta))

/-- Embedding of `TurksHead::getCoordinates`. -/
def getCoordinates {α : Type} [LinearOrderedField α] (M : CMath α) (m : TurksHead α)
    (theta : Int) : α × α :=
  convertRadialToCartesianCoordinates M m (getRadius M m theta) theta

/-- Conversion of a `double` to `int`: the fractional part is discarded. -/
def truncToInt {α : Type} [LinearOrderedField α] [FloorRing α] (x : α) : Int :=
  if 0 ≤ x then ⌊x⌋ else ⌈x⌉

/-- Embedding of `TurksHead::setSourceHsv`: the calls it appends to the context.
The `switch` has no `default`, so a value of `hi` outside `0..5` appends nothing. -/
def setSourceHsv {α : Type} [LinearOrderedField α] [FloorRing α] (h s v : α)
    (ctx : Canvas α) : Canvas α :=
  let hi0 : Int := truncToInt (h / 60)
  let f : α := h / 60 - (hi0 : α)
  let hi : Int := Int.tmod hi0 60
  let p : α := v * (1 - s)
  let q : α := v * (1 - f * s)
  let t : α := v * (1 - (1 - f) * s)
  if hi = 0 then ctx ++ [Cmd.set_source_rgb v t p]
  else if hi = 1 then ctx ++ [Cmd.set_source_rgb q v p]
  else if hi = 2 then ctx ++ [Cmd.set_source_rgb p v t]
  else if hi = 3 then ctx ++ [Cmd.set_source_rgb p q v]
  else if hi = 4 then ctx ++ [Cmd.set_source_rgb t p v]
  else if hi = 5 then ctx ++ [Cmd.set_source_rgb v p q]
  else ctx

/-- Embedding of `TurksHead::drawSegment`. -/
def drawSegment {α : Type} [LinearOrderedField α] (M : CMath α) (m : TurksHead α)
    (theta : Int) (ctx : Canvas α) : Canvas α :=
  let c0 := getCoordinates M m (theta - 1)
  let c1 := getCoordinates M m (theta + 1)
  let x0 := c0.1
  let y0 := c0.2
  let x1 := c1.1
  let y1 := c1.2
  let dx := x1 - x0
  let dy := y1 - y0
  let n := M.sqrt (dx * dx + dy * dy)
  let nx := -m.m_lineWidth * dy / n / 2
  let ny := m.m_lineWidth * dx / n / 2
  ctx ++ [Cmd.move_to (x0 + nx) (y0 + ny),
          Cmd.line_to (x1 + nx) (y1 + ny),
          Cmd.line_to (x1 - nx) (y1 - ny),
          Cmd.line_to (x0 - nx) (y0 - ny),
          Cmd.close_path]

/-- Body of the loop of `TurksHead::drawPath` for one value of `theta`. -/
def drawPathStep {α : Type} [LinearOrderedField α] [FloorRing α] (M : CMath α)
    (m : TurksHead α) (onlyPositiveZ : Bool) (ctx : Canvas α) (theta : Int) :
    Except Failure (Canvas α) :=
  match getAltitude m theta with
  | Except.error e => Except.error e
  | Except.ok z =>
    if !onlyPositiveZ || decide (z > 0) then
      Except.ok
        (drawSegment M m theta
            (setSourceHsv ((theta : α) * 360 / (m.m_maxThetaOnPath : α)) (1 / 2) (1 / 2 + z / 2)
              ctx)
          ++ [Cmd.fill])
    else Except.ok ctx

/-- Embedding of `TurksHead::drawPath`. -/
def drawPath {α : Type} [LinearOrderedField α] [FloorRing α] (M : CMath α)
    (m : TurksHead α) (_path : Int) (onlyPositiveZ : Bool) (ctx : Canvas α) :
    Except Failure (Canvas α) :=
  (intRange 0 m.m_maxThetaOnPath).foldlM (drawPathStep M m onlyPositiveZ) ctx

/-- Body of the loop of `TurksHead::drawPaths` for one value of `path`. -/
def drawPathsStep {α : Type} [LinearOrderedField α] [FloorRing α] (M : CMath α)
    (m : TurksHead α) (onlyPositiveZ : Bool) (ctx : Canvas α) (path : Int) :
    Except Failure (Canvas α) :=
  match drawPath M m path onlyPositiveZ ctx with
  | Except.error e => Except.error e
  | Except.ok ctx1 => Except.ok (ctx1 ++ [Cmd.rotate (2 * M.pi / (m.m_paths : α))])

/-- Embedding of `TurksHead::drawPaths`; `path < m_paths` is `path <= m_paths - 1`. -/
def drawPaths {α : Type} [LinearOrderedField α] [FloorRing α] (M : CMath α)
    (m : TurksHead α) (onlyPositiveZ : Bool) (ctx : Canvas α) : Except Failure (Canvas α) :=
  (intRange 0 (m.m_paths - 1)).foldlM (drawPathsStep M m onlyPositiveZ) ctx

/-- Embedding of `TurksHead::draw`, started on the log `ctx` of the context it is given. -/
def draw {α : Type} [LinearOrderedField α] [FloorRing α] (M : CMath α)
    (m : TurksHead α) (ctx : Canvas α) : Except Failure (Canvas α) :=
  match drawPaths M m false (ctx ++ [Cmd.save]) with
  | Except.error e => Except.error e
  | Except.ok ctx1 =>
    match drawPaths M m true ctx1 with
    | Except.error e => Except.error e
    | Except.ok ctx2 => Except.ok (ctx2 ++ [Cmd.restore])

/-- Loop body of `computeKnownAltitudes` for a non-zero `m_leads`, without the
failure wrapper. -/
def recordStep (leads : Int) (st : List (Int × Int) × Int) (i : Int) :
    List (Int × Int) × Int :=
  if Int.tmod i leads ≠ 0 then (mapAssign st.1 (i * s_stepsTheta) st.2, st.2 * (-1)) else st

/-- Entries with keys `i * s_stepsTheta` for the given indices and values that
change sign from one entry to the next, starting with `alt`. -/
def alternating : List Int → Int → List (Int × Int)
  | [], _ => []
  | i :: is, alt => (i * s_stepsTheta, alt) :: alternating is (alt * (-1))

/-- Indices of the loop of `computeKnownAltitudes` at which an entry is recorded. -/
def recordedIndices (leads bights : Int) : List Int :=
  (intRange (-1) (2 * leads * bights + 1)).filter (fun i => decide (Int.tmod i leads ≠ 0))

/-- Closed form of the table left by `computeKnownAltitudes`. -/
def recordedAltitudes (leads bights : Int) : List (Int × Int) :=
  alternating (recordedIndices leads bights) (-1)

/-- The object the constructor leaves behind when `m_leads` is not zero (closed form of
`construct`, see `construct_eq`).  Like `construct` it is the source's object for
parameters inside the `int` range, `20 * (2 * leads * bights + 1) ≤ 2 ^ 31 - 1`; the
lemmas about it hold for all integers and say nothing about the source beyond that
range. -/
def constructed {α : Type} [LinearOrderedField α] (leads bights : Int)
    (innerRadius outerRadius lineWidth : α) : TurksHead α :=
  { m_leads := leads
    m_bights := bights
    m_paths := (Int.gcd bights leads : Int)
    m_maxThetaOnPath := Int.tdiv (2 * leads * bights * s_stepsTheta) (Int.gcd bights leads : Int)
    m_radius := (innerRadius + outerRadius) / 2
    m_deltaRadius := (outerRadius - innerRadius - lineWidth) / 2
    m_lineWidth := lineWidth
    m_knownAltitudes := recordedAltitudes leads bights }

/-- Follows the spec's words (4.1, "the table is queried for the first key greater
than θ"): position of the first entry whose key is greater than `theta`, the
length of the list when there is none. -/
def upper_bound : List (Int × Int) → Int → Nat
  | [], _ => 0
  | e :: es, theta => if e.1 ≤ theta then upper_bound es theta + 1 else 0

/-- Follows the spec's words (4.1): `(k1, a1)` is the least breakpoint greater
than `θ`, `(k0, a0)` the entry one step back from it, and the altitude is
`a0 + (a1 - a0) * (θ - k0) / (k1 - k0)`; `none` when that pair does not exist. -/
def specAltitude {α : Type} [LinearOrderedField α] (t : List (Int × Int)) (theta : Int) :
    Option α :=
  let i1 := upper_bound t theta
  if i1 = 0 then none
  else
    match t[i1 - 1]?, t[i1]? with
    | some e0, some e1 =>
      some ((e0.2 : α)
        + ((e1.2 : α) - (e0.2 : α)) * ((theta : α) - (e0.1 : α)) / ((e1.1 : α) - (e0.1 : α)))
    | _, _ => none

/-- Altitude handed to the colour and to the filter in `drawPath`; `0` stands in
where `getAltitude` stops at an assertion. -/
def altitudeAt {α : Type} [LinearOrderedField α] (m : TurksHead α) (theta : Int) : α :=
  match getAltitude m theta with
  | Except.ok z => z
  | Except.error _ => 0

/-- Calls appended by one iteration of the loop of `drawPath` in which
`getAltitude` returns. -/
def segmentCalls {α : Type} [LinearOrderedField α] [FloorRing α] (M : CMath α)
    (m : TurksHead α) (onlyPositiveZ : Bool) (theta : Int) : List (Cmd α) :=
  if !onlyPositiveZ || decide (altitudeAt m theta > 0) then
    drawSegment M m theta
        (setSourceHsv ((theta : α) * 360 / (m.m_maxThetaOnPath : α)) (1 / 2)
          (1 / 2 + altitudeAt m theta / 2) [])
      ++ [Cmd.fill]
  else []

/-- Calls appended by one run of `drawPath` in which every `getAltitude` returns. -/
def pathCalls {α : Type} [LinearOrderedField α] [FloorRing α] (M : CMath α)
    (m : TurksHead α) (onlyPositiveZ : Bool) : List (Cmd α) :=
  (intRange 0 m.m_maxThetaOnPath).flatMap (segmentCalls M m onlyPositiveZ)

/-- Calls appended by one run of `drawPaths` in which every `getAltitude` returns. -/
def passCalls {α : Type} [LinearOrderedField α] [FloorRing α] (M : CMath α)
    (m : TurksHead α) (onlyPositiveZ : Bool) : List (Cmd α) :=
  (intRange 0 (m.m_paths - 1)).flatMap
    (fun _ => pathCalls M m onlyPositiveZ ++ [Cmd.rotate (2 * M.pi / (m.m_paths : α))])

/-- Recognises `fill`. -/
def isFill {α : Type} : Cmd α → Bool
  | Cmd.fill => true
  | _ => false

/-- Recognises `set_source_rgb`. -/
def isSetSourceRgb {α : Type} : Cmd α → Bool
  | Cmd.set_source_rgb _ _ _ => true
  | _ => false

/-- Recognises `save` and `restore`. -/
def isSaveOrRestore {α : Type} : Cmd α → Bool
  | Cmd.save => true
  | Cmd.restore => true
  | _ => false

/-- Recognises `rotate`. -/
def isRotate {α : Type} : Cmd α → Bool
  | Cmd.rotate _ => true
  | _ => false

/-- Angle by which a call turns the coordinate frame of the context: the argument
of `rotate`, `0` for every other call. -/
def rotationOf {α : Type} [LinearOrderedField α] : Cmd α → α
  | Cmd.rotate a => a
  | _ => 0

/-- Rotation accumulated by a sequence of calls with no `restore` among them. -/
def totalRotation {α : Type} [LinearOrderedField α] (calls : List (Cmd α)) : α :=
  (calls.map rotationOf).sum

/-! ## The loop ranges -/

theorem mem_intRange (lo hi i : Int) : i ∈ intRange lo hi ↔ lo ≤ i ∧ i ≤ hi := by
  unfold intRange
  simp only [List.mem_map, List.mem_range]
  constructor
  · rintro ⟨k, hk, rfl⟩
    omega
  · rintro ⟨h1, h2⟩
    exact ⟨(i - lo).toNat, by omega, by omega⟩

theorem intRange_pairwise (lo hi : Int) : (intRange lo hi).Pairwise (fun a b => a < b) := by
  unfold intRange
  rw [List.pairwise_map]
  exact (List.pairwise_lt_range _).imp (fun h => by omega)

theorem intRange_length (lo hi : Int) : (intRange lo hi).length = (hi + 1 - lo).toNat := by
  simp [intRange]

/-! ## The altitude table -/

theorem mapAssign_of_lt (t : List (Int × Int)) (k v : Int) (h : ∀ e ∈ t, e.1 < k) :
    mapAssign t k v = t ++ [(k, v)] := by
  induction t with
  | nil => rfl
  | cons e es ih =>
    have he : e.1 < k := h e (List.mem_cons_self _ _)
    have hes : ∀ x ∈ es, x.1 < k := fun x hx => h x (List.mem_cons_of_mem _ hx)
    simp only [mapAssign, List.cons_append]
    rw [if_neg (by omega), if_neg (by omega), ih hes]

theorem foldlM_altitudeStep (leads : Int) (hl : leads ≠ 0) (xs : List Int)
    (st : List (Int × Int) × Int) :
    xs.foldlM (altitudeStep leads) st = Except.ok (xs.foldl (recordStep leads) st) := by
  induction xs generalizing st with
  | nil => rfl
  | cons x xs ih =>
    simp only [List.foldlM_cons, List.foldl_cons]
    have hstep : altitudeStep leads st x = Except.ok (recordStep leads st x) := by
      unfold altitudeStep recordStep
      rw [if_neg hl]
      split <;> rfl
    rw [hstep]
    exact ih _

theorem foldl_recordStep (leads : Int) (xs : List Int) :
    ∀ (t : List (Int × Int)) (a : Int),
      xs.Pairwise (fun a b => a < b) →
      (∀ e ∈ t, ∀ x ∈ xs, e.1 < x * s_stepsTheta) →
      (xs.foldl (recordStep leads) (t, a)).1
        = t ++ alternating (xs.filter (fun i => decide (Int.tmod i leads ≠ 0))) a := by
  induction xs with
  | nil => intro t a _ _; simp [alternating]
  | cons x xs ih =>
    intro t a hp hlt
    have hp1 : ∀ y ∈ xs, x < y := (List.pairwise_cons.mp hp).1
    have hp2 : xs.Pairwise (fun a b => a < b) := (List.pairwise_cons.mp hp).2
    rw [List.foldl_cons]
    by_cases hx : Int.tmod x leads ≠ 0
    · have hstep : recordStep leads (t, a) x = (t ++ [(x * s_stepsTheta, a)], a * (-1)) := by
        unfold recordStep
        rw [if_pos hx]
        simp only
        rw [mapAssign_of_lt t _ _ (fun e he => hlt e he x (List.mem_cons_self _ _))]
      rw [hstep, ih _ _ hp2]
      · rw [List.filter_cons_of_pos (by simpa using hx)]
        simp [alternating]
      · intro e he y hy
        have hxy := hp1 y hy
        rcases List.mem_append.mp he with h | h
        · exact hlt e h y (List.mem_cons_of_mem _ hy)
        · simp only [List.mem_singleton] at h
          subst h
          simp only [s_stepsTheta]
          omega
    · have hstep : recordStep leads (t, a) x = (t, a) := by
        unfold recordStep
        rw [if_neg hx]
      rw [hstep, ih _ _ hp2 (fun e he y hy => hlt e he y (List.mem_cons_of_mem _ hy))]
      rw [List.filter_cons_of_neg (by simpa using hx)]

theorem computeKnownAltitudes_eq {α : Type} (m : TurksHead α) (hl : m.m_leads ≠ 0)
    (hm : m.m_knownAltitudes = []) :
    computeKnownAltitudes m
      = Except.ok { m with m_knownAltitudes := recordedAltitudes m.m_leads m.m_bights } := by
  unfold computeKnownAltitudes
  rw [foldlM_altitudeStep _ hl, hm]
  have h := foldl_recordStep m.m_leads (intRange (-1) (2 * m.m_leads * m.m_bights + 1)) [] (-1)
    (intRange_pairwise _ _) (by simp)
  simp only [List.nil_append] at h
  simp only [Except.map, h, recordedAltitudes, recordedIndices]

theorem construct_eq {α : Type} [LinearOrderedField α] (leads bights : Int)
    (innerRadius outerRadius lineWidth : α) (hl : leads ≠ 0) :
    construct leads bights innerRadius outerRadius lineWidth
      = Except.ok (constructed leads bights innerRadius outerRadius lineWidth) := by
  have hg : ((Int.gcd bights leads : Int)) ≠ 0 := by
    have : Int.gcd bights leads ≠ 0 := by
      intro h
      exact hl (Int.gcd_eq_zero_iff.mp h).2
    exact_mod_cast this
  unfold construct
  simp only [if_neg hg]
  rw [computeKnownAltitudes_eq _ hl rfl]
  rfl

/-! ## The constructor -/

theorem construct_leads_zero {α : Type} [LinearOrderedField α] (bights : Int)
    (innerRadius outerRadius lineWidth : α) :
    construct 0 bights innerRadius outerRadius lineWidth
      = Except.error Failure.DivisionByZero := by
  unfold construct
  simp only
  split
  · rfl
  · unfold computeKnownAltitudes
    have hr : intRange (-1) (2 * 0 * bights + 1) = [-1, 0, 1] := by
      simp only [Int.mul_zero, Int.zero_mul, Int.zero_add]
      rfl
    simp only [hr]
    rfl

/-- C1 (counterexample): with `outerRadius < innerRadius` (60 and 40) the
constructor does not fail with `InvalidParameters`; it returns a model whose
altitude table has been built.  With `leads = 0` the run stops at the remainder
`i % m_leads`, not at a parameter check. -/
theorem construct_accepts_inverted_radii :
    (40 : ℚ) < 60
      ∧ construct 3 5 (60 : ℚ) 40 2 ≠ Except.error Failure.InvalidParameters
      ∧ (construct 3 5 (60 : ℚ) 40 2).map (fun m => m.m_knownAltitudes.length) = Except.ok 22
      ∧ construct 0 5 (40 : ℚ) 60 2 ≠ Except.error Failure.InvalidParameters := by
  refine ⟨by norm_num, ?_, ?_, ?_⟩
  · rw [construct_eq 3 5 _ _ _ (by decide)]
    exact fun h => by cases h
  · rw [construct_eq 3 5 _ _ _ (by decide)]
    rfl
  · rw [construct_leads_zero]
    exact fun h => by cases h

/-- C2: for `leads ≥ 1`, `bights ≥ 1` with `2 * leads * bights * 20` inside the
`int` range, the constructor sets `m_paths` to `gcd(leads, bights)`, which
divides both parameters, and `m_maxThetaOnPath` to the exact quotient of
`2 * leads * bights * 20` by it, a positive value inside the `int` range. -/
theorem construct_paths_maxTheta {α : Type} [LinearOrderedField α]
    (leads bights : Int) (innerRadius outerRadius lineWidth : α)
    (hl : 1 ≤ leads) (hb : 1 ≤ bights) (hr : 2 * leads * bights * 20 ≤ 2 ^ 31 - 1) :
    ∃ m, construct leads bights innerRadius outerRadius lineWidth = Except.ok m
      ∧ m.m_paths = (Int.gcd leads bights : Int)
      ∧ m.m_paths ∣ leads ∧ m.m_paths ∣ bights
      ∧ m.m_maxThetaOnPath = Int.tdiv (2 * leads * bights * 20) m.m_paths
      ∧ m.m_maxThetaOnPath * m.m_paths = 2 * leads * bights * 20
      ∧ 0 < m.m_maxThetaOnPath
      ∧ m.m_maxThetaOnPath ≤ 2 ^ 31 - 1 := by
  have hgl : ((Int.gcd bights leads : Int)) ∣ leads := Int.gcd_dvd_right
  have hgpos : (0 : Int) < (Int.gcd bights leads : Int) := by
    have : 0 < Int.gcd bights leads := Int.gcd_pos_of_ne_zero_right _ (by omega)
    exact_mod_cast this
  have hnum : (0 : Int) < 2 * leads * bights * 20 := by positivity
  have hdvd : ((Int.gcd bights leads : Int)) ∣ 2 * leads * bights * 20 :=
    Dvd.dvd.mul_right (Dvd.dvd.mul_right (Dvd.dvd.mul_left hgl 2) bights) 20
  have hq : Int.tdiv (2 * leads * bights * 20) (Int.gcd bights leads : Int)
      = 2 * leads * bights * 20 / (Int.gcd bights leads : Int) :=
    Int.tdiv_eq_ediv (le_of_lt hnum) (le_of_lt hgpos)
  have hmul : 2 * leads * bights * 20 / (Int.gcd bights leads : Int)
      * (Int.gcd bights leads : Int) = 2 * leads * bights * 20 :=
    Int.ediv_mul_cancel hdvd
  have hle : 2 * leads * bights * 20 / (Int.gcd bights leads : Int)
      ≤ 2 * leads * bights * 20 := Int.ediv_le_self _ (le_of_lt hnum)
  have hpos : 0 < 2 * leads * bights * 20 / (Int.gcd bights leads : Int) := by
    by_contra hneg
    have h1 : 2 * leads * bights * 20 / (Int.gcd bights leads : Int) ≤ 0 := by omega
    have h2 := Int.mul_le_mul_of_nonneg_right h1 (le_of_lt hgpos)
    rw [hmul] at h2
    omega
  rw [construct_eq leads bights _ _ _ (by omega)]
  refine ⟨_, rfl, ?_, ?_, ?_, ?_, ?_, ?_, ?_⟩
  · show ((Int.gcd bights leads : Int)) = (Int.gcd leads bights : Int)
    rw [Int.gcd_comm]
  · exact hgl
  · exact Int.gcd_dvd_left
  · rfl
  · show Int.tdiv (2 * leads * bights * 20) (Int.gcd bights leads : Int)
      * (Int.gcd bights leads : Int) = 2 * leads * bights * 20
    rw [hq, hmul]
  · show 0 < Int.tdiv (2 * leads * bights * 20) (Int.gcd bights leads : Int)
    rw [hq]
    exact hpos
  · show Int.tdiv (2 * leads * bights * 20) (Int.gcd bights leads : Int) ≤ 2 ^ 31 - 1
    rw [hq]
    omega

/-- C2 (witness): `leads = 3`, `bights = 5` give `m_paths = 1` and
`m_maxThetaOnPath = 600`. -/
theorem construct_paths_maxTheta_witness :
    (1 : Int) ≤ 3 ∧ (1 : Int) ≤ 5 ∧ (2 * 3 * 5 * 20 : Int) ≤ 2 ^ 31 - 1
      ∧ ∃ m, construct 3 5 (40 : ℚ) 60 2 = Except.ok m
          ∧ m.m_paths = 1 ∧ m.m_maxThetaOnPath = 600 :=
  ⟨by decide, by decide, by decide,
    let ⟨m, h, hp, _, _, _, hmul, _, _⟩ :=
      construct_paths_maxTheta 3 5 (40 : ℚ) 60 2 (by decide) (by decide) (by decide)
    have hp1 : m.m_paths = 1 := by rw [hp]; decide
    ⟨m, h, hp1, by rw [hp1] at hmul; omega⟩⟩

/-! ## Keys and values of the table -/

theorem tmod_ne_zero_iff (i leads : Int) : Int.tmod i leads ≠ 0 ↔ ¬ leads ∣ i :=
  not_congr ⟨Int.dvd_of_tmod_eq_zero, Int.tmod_eq_zero_of_dvd⟩

theorem mem_recordedIndices (leads bights i : Int) :
    i ∈ recordedIndices leads bights
      ↔ (-1 ≤ i ∧ i ≤ 2 * leads * bights + 1) ∧ ¬ leads ∣ i := by
  unfold recordedIndices
  rw [List.mem_filter, mem_intRange, decide_eq_true_eq, tmod_ne_zero_iff]

theorem recordedIndices_pairwise (leads bights : Int) :
    (recordedIndices leads bights).Pairwise (fun a b => a < b) :=
  (intRange_pairwise _ _).filter _

theorem alternating_keys (is : List Int) (a : Int) :
    (alternating is a).map Prod.fst = is.map (fun i => i * s_stepsTheta) := by
  induction is generalizing a with
  | nil => rfl
  | cons i is ih => simp [alternating, ih]

theorem alternating_length (is : List Int) (a : Int) :
    (alternating is a).length = is.length := by
  induction is generalizing a with
  | nil => rfl
  | cons i is ih => simp [alternating, ih]

theorem alternating_getElem? (is : List Int) :
    ∀ (a : Int) (j : Nat),
      (alternating is a)[j]?
        = (is[j]?).map (fun i => (i * s_stepsTheta, if j % 2 = 0 then a else a * (-1))) := by
  induction is with
  | nil => intro a j; simp [alternating]
  | cons i is ih =>
    intro a j
    cases j with
    | zero => simp [alternating]
    | succ j =>
      simp only [alternating, List.getElem?_cons_succ, ih]
      rcases Nat.mod_two_eq_zero_or_one j with h | h
      · have h2 : (j + 1) % 2 = 1 := by omega
        simp [h, h2]
      · have h2 : (j + 1) % 2 = 0 := by omega
        simp [h, h2]

theorem recordedAltitudes_keys (leads bights : Int) :
    (recordedAltitudes leads bights).map Prod.fst
      = (recordedIndices leads bights).map (fun i => i * s_stepsTheta) :=
  alternating_keys _ _

theorem recordedAltitudes_sorted (leads bights : Int) :
    (recordedAltitudes leads bights).Pairwise (fun a b => a.1 < b.1) := by
  have h : ((recordedAltitudes leads bights).map Prod.fst).Pairwise (fun a b => a < b) := by
    rw [recordedAltitudes_keys, List.pairwise_map]
    exact (recordedIndices_pairwise leads bights).imp
      (fun h => by simp only [s_stepsTheta]; omega)
  exact List.pairwise_map.mp h

theorem mem_recordedAltitudes_keys (leads bights k : Int) :
    k ∈ (recordedAltitudes leads bights).map Prod.fst
      ↔ ∃ i, -1 ≤ i ∧ i ≤ 2 * leads * bights + 1 ∧ ¬ leads ∣ i ∧ k = 20 * i := by
  rw [recordedAltitudes_keys, List.mem_map]
  constructor
  · rintro ⟨i, hi, rfl⟩
    have h := (mem_recordedIndices leads bights i).mp hi
    exact ⟨i, h.1.1, h.1.2, h.2, by simp only [s_stepsTheta]; ring⟩
  · rintro ⟨i, h1, h2, h3, rfl⟩
    exact ⟨i, (mem_recordedIndices leads bights i).mpr ⟨⟨h1, h2⟩, h3⟩,
      by simp only [s_stepsTheta]; ring⟩

theorem recordedAltitudes_value (leads bights : Int) (j : Nat) (e : Int × Int)
    (h : (recordedAltitudes leads bights)[j]? = some e) :
    e.2 = if j % 2 = 0 then -1 else 1 := by
  unfold recordedAltitudes at h
  rw [alternating_getElem?] at h
  cases hi : (recordedIndices leads bights)[j]? with
  | none => rw [hi] at h; cases h
  | some i =>
    rw [hi] at h
    simp only [Option.map_some', Option.some.injEq] at h
    rw [← h]
    split <;> rfl

theorem recordedAltitudes_keys_fit (leads bights : Int) (hl : 1 ≤ leads) (hb : 1 ≤ bights)
    (hr : 20 * (2 * leads * bights + 1) ≤ 2 ^ 31 - 1) :
    ∀ e ∈ recordedAltitudes leads bights, -(2 ^ 31) ≤ e.1 ∧ e.1 ≤ 2 ^ 31 - 1 := by
  intro e he
  have hk : e.1 ∈ (recordedAltitudes leads bights).map Prod.fst := List.mem_map.mpr ⟨e, he, rfl⟩
  obtain ⟨i, h1, h2, _, hki⟩ := (mem_recordedAltitudes_keys leads bights e.1).mp hk
  have hpos : (0 : Int) ≤ 2 * leads * bights := by positivity
  constructor
  · omega
  · omega

/-- C4: for `leads ≥ 1`, `bights ≥ 1` with the last key
`20 * (2 * leads * bights + 1)` inside the `int` range (so that no `int` expression
of the loop overflows), the table built by the constructor lists its entries in
strictly increasing key order, its keys are exactly the values `20 * i` for
`-1 ≤ i ≤ 2 * leads * bights + 1` with `i` not a multiple of `leads`, all of them
`int` values, and the value of the entry at position `j` is `-1` for even `j` and
`+1` for odd `j`: the values alternate from `-1` on, with no extra flip at a skipped
index. -/
theorem knownAltitudes_keys_and_alternation {α : Type} [LinearOrderedField α]
    (leads bights : Int) (innerRadius outerRadius lineWidth : α)
    (hl : 1 ≤ leads) (hb : 1 ≤ bights)
    (hr : 20 * (2 * leads * bights + 1) ≤ 2 ^ 31 - 1) :
    ∃ m, construct leads bights innerRadius outerRadius lineWidth = Except.ok m
      ∧ m.m_knownAltitudes.Pairwise (fun a b => a.1 < b.1)
      ∧ (∀ k, k ∈ m.m_knownAltitudes.map Prod.fst
            ↔ ∃ i, -1 ≤ i ∧ i ≤ 2 * leads * bights + 1 ∧ ¬ leads ∣ i ∧ k = 20 * i)
      ∧ (∀ e ∈ m.m_knownAltitudes, -(2 ^ 31) ≤ e.1 ∧ e.1 ≤ 2 ^ 31 - 1)
      ∧ (∀ (j : Nat) (e : Int × Int), m.m_knownAltitudes[j]? = some e →
            e.2 = if j % 2 = 0 then -1 else 1) := by
  rw [construct_eq leads bights _ _ _ (by omega)]
  exact ⟨_, rfl, recordedAltitudes_sorted leads bights,
    mem_recordedAltitudes_keys leads bights,
    recordedAltitudes_keys_fit leads bights hl hb hr,
    recordedAltitudes_value leads bights⟩

/-- C4 (witness): for `leads = 3`, `bights = 5` the last key is `620`, and the table
holds the 22 indices from `-1` to `31` that are not multiples of 3, with values
`-1, +1, -1, ...`. -/
theorem knownAltitudes_keys_and_alternation_witness :
    (1 : Int) ≤ 3 ∧ (1 : Int) ≤ 5 ∧ (20 * (2 * 3 * 5 + 1) : Int) ≤ 2 ^ 31 - 1
      ∧ ∃ m, construct 3 5 (40 : ℚ) 60 2 = Except.ok m
          ∧ m.m_knownAltitudes
              = [(-20, -1), (20, 1), (40, -1), (80, 1), (100, -1), (140, 1), (160, -1),
                 (200, 1), (220, -1), (260, 1), (280, -1), (320, 1), (340, -1), (380, 1),
                 (400, -1), (440, 1), (460, -1), (500, 1), (520, -1), (560, 1), (580, -1),
                 (620, 1)]
          ∧ (∀ (j : Nat) (e : Int × Int), m.m_knownAltitudes[j]? = some e →
                e.2 = if j % 2 = 0 then -1 else 1) :=
  ⟨by decide, by decide, by decide,
    let ⟨m, h, _, _, _, hv⟩ :=
      knownAltitudes_keys_and_alternation 3 5 (40 : ℚ) 60 2 (by decide) (by decide)
        (by decide)
    ⟨m, h, by
      rw [construct_eq 3 5 _ _ _ (by decide)] at h
      cases h
      rfl, hv⟩⟩

/-! ## The lookup of `getAltitude` -/

theorem lower_bound_le (t : List (Int × Int)) (theta : Int) :
    lower_bound t theta ≤ t.length := by
  induction t with
  | nil => simp [lower_bound]
  | cons e es ih =>
    simp only [lower_bound, List.length_cons]
    split <;> omega

theorem lower_bound_before (t : List (Int × Int)) (theta : Int) :
    ∀ (j : Nat) (e : Int × Int), j < lower_bound t theta → t[j]? = some e → e.1 < theta := by
  induction t with
  | nil => intro j e hj; simp [lower_bound] at hj
  | cons c cs ih =>
    intro j e hj he
    simp only [lower_bound] at hj
    split at hj
    · cases j with
      | zero =>
        simp only [List.getElem?_cons_zero, Option.some.injEq] at he
        subst he
        assumption
      | succ j =>
        simp only [List.getElem?_cons_succ] at he
        exact ih j e (by omega) he
    · omega

theorem lower_bound_at (t : List (Int × Int)) (theta : Int) :
    ∀ e : Int × Int, t[lower_bound t theta]? = some e → theta ≤ e.1 := by
  induction t with
  | nil => intro e he; simp at he
  | cons c cs ih =>
    intro e he
    simp only [lower_bound] at he
    split at he
    · simp only [List.getElem?_cons_succ] at he
      exact ih e he
    · simp only [List.getElem?_cons_zero, Option.some.injEq] at he
      subst he
      omega

theorem lower_bound_eq_length (t : List (Int × Int)) (theta : Int)
    (h : lower_bound t theta = t.length) : ∀ e ∈ t, e.1 < theta := by
  intro e he
  obtain ⟨j, hj⟩ := List.mem_iff_getElem?.mp he
  have hlt : j < t.length := (List.getElem?_eq_some.mp hj).1
  exact lower_bound_before t theta j e (by omega) hj

theorem upper_bound_before (t : List (Int × Int)) (theta : Int) :
    ∀ (j : Nat) (e : Int × Int), j < upper_bound t theta → t[j]? = some e → e.1 ≤ theta := by
  induction t with
  | nil => intro j e hj; simp [upper_bound] at hj
  | cons c cs ih =>
    intro j e hj he
    simp only [upper_bound] at hj
    split at hj
    · cases j with
      | zero =>
        simp only [List.getElem?_cons_zero, Option.some.injEq] at he
        subst he
        assumption
      | succ j =>
        simp only [List.getElem?_cons_succ] at he
        exact ih j e (by omega) he
    · omega

theorem upper_bound_at (t : List (Int × Int)) (theta : Int) :
    ∀ e : Int × Int, t[upper_bound t theta]? = some e → theta < e.1 := by
  induction t with
  | nil => intro e he; simp at he
  | cons c cs ih =>
    intro e he
    simp only [upper_bound] at he
    split at he
    · simp only [List.getElem?_cons_succ] at he
      exact ih e he
    · simp only [List.getElem?_cons_zero, Option.some.injEq] at he
      subst he
      omega

theorem lower_bound_le_upper_bound (t : List (Int × Int)) (theta : Int) :
    lower_bound t theta ≤ upper_bound t theta := by
  induction t with
  | nil => simp [lower_bound, upper_bound]
  | cons c cs ih =>
    simp only [lower_bound, upper_bound]
    by_cases h : c.1 < theta
    · rw [if_pos h, if_pos (by omega)]
      omega
    · rw [if_neg h]
      omega

theorem sorted_getElem?_lt (t : List (Int × Int)) (hs : t.Pairwise (fun a b => a.1 < b.1))
    (i j : Nat) (a b : Int × Int) (hij : i < j) (ha : t[i]? = some a) (hb : t[j]? = some b) :
    a.1 < b.1 := by
  obtain ⟨hi, rfl⟩ := List.getElem?_eq_some.mp ha
  obtain ⟨hj, rfl⟩ := List.getElem?_eq_some.mp hb
  exact List.pairwise_iff_getElem.mp hs i j hi hj hij

theorem getAltitude_eq {α : Type} [LinearOrderedField α] (m : TurksHead α) (theta : Int)
    (prevE nextE : Int × Int) (h0 : lower_bound m.m_knownAltitudes theta ≠ 0)
    (hp : m.m_knownAltitudes[lower_bound m.m_knownAltitudes theta - 1]? = some prevE)
    (hn : m.m_knownAltitudes[lower_bound m.m_knownAltitudes theta]? = some nextE) :
    getAltitude m theta
      = Except.ok ((prevE.2 : α)
          + (((nextE.2 - prevE.2) * (theta - prevE.1) : Int) : α)
            / ((nextE.1 - prevE.1 : Int) : α)) := by
  have hlt : lower_bound m.m_knownAltitudes theta < m.m_knownAltitudes.length :=
    (List.getElem?_eq_some.mp hn).1
  unfold getAltitude
  simp only [if_neg h0, if_neg (Nat.ne_of_lt hlt), hp, hn]

theorem getAltitude_defined_of_bounds {α : Type} [LinearOrderedField α] (m : TurksHead α)
    (theta : Int) (first last : Int × Int) (rest : List (Int × Int))
    (ht : m.m_knownAltitudes = first :: rest) (hfirst : first.1 < theta)
    (hmem : last ∈ m.m_knownAltitudes) (hlast : theta ≤ last.1) :
    ∃ prevE nextE : Int × Int,
      lower_bound m.m_knownAltitudes theta ≠ 0
        ∧ m.m_knownAltitudes[lower_bound m.m_knownAltitudes theta - 1]? = some prevE
        ∧ m.m_knownAltitudes[lower_bound m.m_knownAltitudes theta]? = some nextE
        ∧ getAltitude m theta
            = Except.ok ((prevE.2 : α)
                + (((nextE.2 - prevE.2) * (theta - prevE.1) : Int) : α)
                  / ((nextE.1 - prevE.1 : Int) : α)) := by
  have h0 : lower_bound m.m_knownAltitudes theta ≠ 0 := by
    rw [ht]
    simp only [lower_bound, if_pos hfirst]
    omega
  have hne : lower_bound m.m_knownAltitudes theta ≠ m.m_knownAltitudes.length := by
    intro h
    have := lower_bound_eq_length _ _ h last hmem
    omega
  have hle := lower_bound_le m.m_knownAltitudes theta
  have h1 : lower_bound m.m_knownAltitudes theta < m.m_knownAltitudes.length := by omega
  have h2 : lower_bound m.m_knownAltitudes theta - 1 < m.m_knownAltitudes.length := by omega
  exact ⟨_, _, h0, List.getElem?_eq_getElem h2, List.getElem?_eq_getElem h1,
    getAltitude_eq m theta _ _ h0 (List.getElem?_eq_getElem h2) (List.getElem?_eq_getElem h1)⟩

/-! ## Range of the table against the range of the sweep -/

theorem intRange_cons (lo hi : Int) (h : lo ≤ hi) :
    intRange lo hi = lo :: intRange (lo + 1) hi := by
  unfold intRange
  have hn : (hi + 1 - lo).toNat = (hi + 1 - (lo + 1)).toNat + 1 := by omega
  rw [hn, List.range_succ_eq_map, List.map_cons, List.map_map]
  congr 1
  · simp
  · apply List.map_congr_left
    intro k _
    simp only [Function.comp_apply, Nat.succ_eq_add_one, Nat.cast_add, Nat.cast_one]
    ring

theorem intRange_empty (lo hi : Int) (h : hi < lo) : intRange lo hi = [] := by
  unfold intRange
  have hn : (hi + 1 - lo).toNat = 0 := by omega
  rw [hn]
  rfl

theorem recordedAltitudes_one_lead (bights : Int) : recordedAltitudes 1 bights = [] := by
  unfold recordedAltitudes recordedIndices
  have h : (intRange (-1) (2 * 1 * bights + 1)).filter
      (fun i => decide (Int.tmod i 1 ≠ 0)) = [] := by
    rw [List.filter_eq_nil_iff]
    intro i _
    simp [Int.tmod_one]
  rw [h]
  rfl

theorem recordedAltitudes_first (leads bights : Int) (hl : 2 ≤ leads) (hb : 1 ≤ bights) :
    ∃ rest, recordedAltitudes leads bights = (-20, -1) :: rest := by
  have hhi : (0 : Int) ≤ 2 * leads * bights := by positivity
  have hnd : Int.tmod (-1) leads ≠ 0 := by
    rw [tmod_ne_zero_iff]
    intro hd
    have h1 : leads ∣ 1 := (Int.dvd_neg).mp hd
    have := Int.le_of_dvd (by decide) h1
    omega
  unfold recordedAltitudes recordedIndices
  rw [intRange_cons (-1) _ (by omega), List.filter_cons_of_pos (by simpa using hnd)]
  exact ⟨_, rfl⟩

theorem recordedAltitudes_last (leads bights : Int) (hl : 2 ≤ leads) (hb : 1 ≤ bights) :
    ∃ e ∈ recordedAltitudes leads bights, e.1 = 20 * (2 * leads * bights + 1) := by
  have hhi : (0 : Int) ≤ 2 * leads * bights := by positivity
  have hk : 20 * (2 * leads * bights + 1) ∈ (recordedAltitudes leads bights).map Prod.fst := by
    rw [mem_recordedAltitudes_keys]
    refine ⟨2 * leads * bights + 1, by omega, le_refl _, ?_, rfl⟩
    intro hd
    have h2 : leads ∣ 2 * leads * bights := Dvd.dvd.mul_right (Dvd.intro_left 2 rfl) bights
    have h1 : leads ∣ 1 := (Int.dvd_add_right h2).mp hd
    have := Int.le_of_dvd (by decide) h1
    omega
  obtain ⟨e, he, hke⟩ := List.mem_map.mp hk
  exact ⟨e, he, hke⟩

theorem constructed_maxTheta_bounds {α : Type} [LinearOrderedField α] (leads bights : Int)
    (innerRadius outerRadius lineWidth : α) (hl : 1 ≤ leads) (hb : 1 ≤ bights) :
    0 < (constructed leads bights innerRadius outerRadius lineWidth).m_maxThetaOnPath
      ∧ (constructed leads bights innerRadius outerRadius lineWidth).m_maxThetaOnPath
          ≤ 20 * (2 * leads * bights) := by
  have hgl : ((Int.gcd bights leads : Int)) ∣ leads := Int.gcd_dvd_right
  have hgpos : (0 : Int) < (Int.gcd bights leads : Int) := by
    have : 0 < Int.gcd bights leads := Int.gcd_pos_of_ne_zero_right _ (by omega)
    exact_mod_cast this
  have hnum : (0 : Int) < 2 * leads * bights * 20 := by positivity
  have hdvd : ((Int.gcd bights leads : Int)) ∣ 2 * leads * bights * 20 :=
    Dvd.dvd.mul_right (Dvd.dvd.mul_right (Dvd.dvd.mul_left hgl 2) bights) 20
  have hq : Int.tdiv (2 * leads * bights * 20) (Int.gcd bights leads : Int)
      = 2 * leads * bights * 20 / (Int.gcd bights leads : Int) :=
    Int.tdiv_eq_ediv (le_of_lt hnum) (le_of_lt hgpos)
  have hmul : 2 * leads * bights * 20 / (Int.gcd bights leads : Int)
      * (Int.gcd bights leads : Int) = 2 * leads * bights * 20 :=
    Int.ediv_mul_cancel hdvd
  have hle : 2 * leads * bights * 20 / (Int.gcd bights leads : Int)
      ≤ 2 * leads * bights * 20 := Int.ediv_le_self _ (le_of_lt hnum)
  show 0 < Int.tdiv (2 * leads * bights * 20) (Int.gcd bights leads : Int)
    ∧ Int.tdiv (2 * leads * bights * 20) (Int.gcd bights leads : Int)
        ≤ 20 * (2 * leads * bights)
  rw [hq]
  constructor
  · by_contra hneg
    have h1 : 2 * leads * bights * 20 / (Int.gcd bights leads : Int) ≤ 0 := by omega
    have h2 := Int.mul_le_mul_of_nonneg_right h1 (le_of_lt hgpos)
    rw [hmul] at h2
    omega
  · omega

/-- In the closed form `constructed` with at least two leads, every `theta` of the
sweep `0 .. m_maxThetaOnPath` lies after the first key and before the last key of the
table: both assertions of `getAltitude` hold and it returns the interpolated value. -/
theorem getAltitude_defined {α : Type} [LinearOrderedField α] (leads bights : Int)
    (innerRadius outerRadius lineWidth : α) (hl : 2 ≤ leads) (hb : 1 ≤ bights)
    (theta : Int) (h0 : 0 ≤ theta)
    (h1 : theta ≤ (constructed leads bights innerRadius outerRadius lineWidth).m_maxThetaOnPath) :
    ∃ prevE nextE : Int × Int,
      lower_bound (recordedAltitudes leads bights) theta ≠ 0
        ∧ (recordedAltitudes leads bights)[lower_bound (recordedAltitudes leads bights) theta - 1]?
            = some prevE
        ∧ (recordedAltitudes leads bights)[lower_bound (recordedAltitudes leads bights) theta]?
            = some nextE
        ∧ getAltitude (constructed leads bights innerRadius outerRadius lineWidth) theta
            = Except.ok ((prevE.2 : α)
                + (((nextE.2 - prevE.2) * (theta - prevE.1) : Int) : α)
                  / ((nextE.1 - prevE.1 : Int) : α)) := by
  obtain ⟨rest, hrest⟩ := recordedAltitudes_first leads bights hl hb
  obtain ⟨e, he, hke⟩ := recordedAltitudes_last leads bights hl hb
  have hmax := (constructed_maxTheta_bounds leads bights innerRadius outerRadius lineWidth
    (by omega) hb).2
  exact getAltitude_defined_of_bounds
    (constructed leads bights innerRadius outerRadius lineWidth) theta (-20, -1) e rest
    hrest (by show (-20 : Int) < theta; omega) he (by omega)

/-- C3 (failing input): with `leads = 1` every index of the loop of
`computeKnownAltitudes` is a multiple of `m_leads`, the table stays empty, and
`getAltitude` stops at its first assertion for every `theta`, in particular for
`leads = 1`, `bights = 1`, `theta = 0`, the first value the renderer asks for. -/
theorem getAltitude_fails_with_one_lead {α : Type} [LinearOrderedField α] (bights : Int)
    (innerRadius outerRadius lineWidth : α) (theta : Int) :
    ∃ m, construct 1 bights innerRadius outerRadius lineWidth = Except.ok m
      ∧ m.m_knownAltitudes = []
      ∧ lower_bound m.m_knownAltitudes theta = 0
      ∧ getAltitude m theta = Except.error Failure.InternalInvariantViolation := by
  rw [construct_eq 1 bights _ _ _ (by decide)]
  have ht : (constructed 1 bights innerRadius outerRadius lineWidth).m_knownAltitudes = [] :=
    recordedAltitudes_one_lead bights
  refine ⟨_, rfl, ht, by rw [ht]; rfl, ?_⟩
  unfold getAltitude
  rw [ht]
  rfl

/-! ## What the constructor accepts -/

/-- C1 (amended): the constructor checks none of its arguments.  It never fails
with `InvalidParameters`, and for `leads ≥ 1`, `bights ≥ 1` with the last key
`20 * (2 * leads * bights + 1)` inside the `int` range (so that no `int` expression
of the constructor overflows) it returns a model whose altitude table is the one
`computeKnownAltitudes` records, with keys and `m_maxThetaOnPath` inside the `int`
range, whatever the radii and the line width are. -/
theorem construct_performs_no_validation {α : Type} [LinearOrderedField α]
    (leads bights : Int) (innerRadius outerRadius lineWidth : α) :
    construct leads bights innerRadius outerRadius lineWidth
        ≠ Except.error Failure.InvalidParameters
      ∧ (1 ≤ leads → 1 ≤ bights → 20 * (2 * leads * bights + 1) ≤ 2 ^ 31 - 1 →
          ∃ m, construct leads bights innerRadius outerRadius lineWidth = Except.ok m
            ∧ m.m_leads = leads ∧ m.m_bights = bights
            ∧ m.m_radius = (innerRadius + outerRadius) / 2
            ∧ m.m_deltaRadius = (outerRadius - innerRadius - lineWidth) / 2
            ∧ m.m_lineWidth = lineWidth
            ∧ m.m_knownAltitudes = recordedAltitudes leads bights
            ∧ (∀ e ∈ m.m_knownAltitudes, -(2 ^ 31) ≤ e.1 ∧ e.1 ≤ 2 ^ 31 - 1)
            ∧ 0 < m.m_maxThetaOnPath ∧ m.m_maxThetaOnPath ≤ 2 ^ 31 - 1) := by
  constructor
  · by_cases hl : leads = 0
    · subst hl
      rw [construct_leads_zero]
      exact fun h => by cases h
    · rw [construct_eq leads bights _ _ _ hl]
      exact fun h => by cases h
  · intro hl hb hr
    have hmax := constructed_maxTheta_bounds leads bights innerRadius outerRadius lineWidth
      hl hb
    rw [construct_eq leads bights _ _ _ (by omega)]
    exact ⟨_, rfl, rfl, rfl, rfl, rfl, rfl, rfl,
      recordedAltitudes_keys_fit leads bights hl hb hr, hmax.1, by omega⟩

/-- C1 (witness): the amended statement at `leads = 3`, `bights = 5` and the
inverted radii 60 and 40. -/
theorem construct_performs_no_validation_witness :
    (1 : Int) ≤ 3 ∧ (1 : Int) ≤ 5 ∧ (20 * (2 * 3 * 5 + 1) : Int) ≤ 2 ^ 31 - 1
      ∧ ∃ m, construct 3 5 (60 : ℚ) 40 2 = Except.ok m
          ∧ m.m_knownAltitudes = recordedAltitudes 3 5 :=
  ⟨by decide, by decide, by decide,
    let ⟨m, h, _, _, _, _, _, ht, _⟩ :=
      (construct_performs_no_validation 3 5 (60 : ℚ) 40 2).2 (by decide) (by decide)
        (by decide)
    ⟨m, h, ht⟩⟩

/-! ## The lookup of the code against the lookup of the specification -/

/-- C5 (counterexample): in the table of `leads = 3`, `bights = 5` the first key is
`-20` and the last `620`.  At `theta = -20` the pair of the specification exists
(`(k0, a0) = (-20, -1)`, `(k1, a1) = (20, 1)`) and its formula gives `-1`, but
`lower_bound( -20 )` is `begin()` and `getAltitude` stops at its first assertion.
At `theta = 620` it is the other way round: no key is greater than `620`, so the
pair of the specification does not exist, and `getAltitude` returns `1`. -/
theorem getAltitude_differs_at_table_ends :
    ∃ m, construct 3 5 (40 : ℚ) 60 2 = Except.ok m
      ∧ m.m_knownAltitudes[upper_bound m.m_knownAltitudes (-20) - 1]? = some (-20, -1)
      ∧ m.m_knownAltitudes[upper_bound m.m_knownAltitudes (-20)]? = some (20, 1)
      ∧ specAltitude m.m_knownAltitudes (-20) = some (-1 : ℚ)
      ∧ getAltitude m (-20) = Except.error Failure.InternalInvariantViolation
      ∧ upper_bound m.m_knownAltitudes 620 = m.m_knownAltitudes.length
      ∧ specAltitude m.m_knownAltitudes 620 = (none : Option ℚ)
      ∧ getAltitude m 620 = Except.ok (1 : ℚ) := by
  rw [construct_eq 3 5 _ _ _ (by decide)]
  have h0 : (constructed 3 5 (40 : ℚ) 60 2).m_knownAltitudes[
      upper_bound (constructed 3 5 (40 : ℚ) 60 2).m_knownAltitudes (-20) - 1]?
        = some (-20, -1) := by decide
  have h1 : (constructed 3 5 (40 : ℚ) 60 2).m_knownAltitudes[
      upper_bound (constructed 3 5 (40 : ℚ) 60 2).m_knownAltitudes (-20)]?
        = some (20, 1) := by decide
  have hne : upper_bound (constructed 3 5 (40 : ℚ) 60 2).m_knownAltitudes (-20) ≠ 0 := by
    decide
  have hlb : lower_bound (constructed 3 5 (40 : ℚ) 60 2).m_knownAltitudes (-20) = 0 := by
    decide
  have hub : upper_bound (constructed 3 5 (40 : ℚ) 60 2).m_knownAltitudes 620
      = (constructed 3 5 (40 : ℚ) 60 2).m_knownAltitudes.length := by decide
  have hlb2 : lower_bound (constructed 3 5 (40 : ℚ) 60 2).m_knownAltitudes 620 = 21 := by
    decide
  have hp2 : (constructed 3 5 (40 : ℚ) 60 2).m_knownAltitudes[
      lower_bound (constructed 3 5 (40 : ℚ) 60 2).m_knownAltitudes 620 - 1]?
        = some (580, -1) := by decide
  have hn2 : (constructed 3 5 (40 : ℚ) 60 2).m_knownAltitudes[
      lower_bound (constructed 3 5 (40 : ℚ) 60 2).m_knownAltitudes 620]?
        = some (620, 1) := by decide
  refine ⟨_, rfl, h0, h1, ?_, ?_, hub, ?_, ?_⟩
  · unfold specAltitude
    simp only [if_neg hne, h0, h1]
    norm_num
  · unfold getAltitude
    simp only [hlb]
    rfl
  · unfold specAltitude
    simp only [hub]
    simp
  · rw [getAltitude_eq _ 620 _ _ (by rw [hlb2]; decide) hp2 hn2]
    norm_num

/-- C5 (amended): in a table with strictly increasing keys, for every `theta` greater
than the first key for which the pair of the specification exists (`(k1, a1)` the
entry with the least key greater than `theta`, `(k0, a0)` the entry before it),
both assertions of `getAltitude` hold and it returns
`a0 + (a1 - a0) * (theta - k0) / (k1 - k0)`, also when `theta` is itself a key. -/
theorem getAltitude_refines_specAltitude {α : Type} [LinearOrderedField α] (m : TurksHead α)
    (theta : Int) (x : α)
    (hs : m.m_knownAltitudes.Pairwise (fun a b => a.1 < b.1))
    (hfirst : ∀ e, m.m_knownAltitudes.head? = some e → e.1 < theta)
    (hx : specAltitude m.m_knownAltitudes theta = some x) :
    getAltitude m theta = Except.ok x := by
  generalize ht : m.m_knownAltitudes = t at hs hfirst hx
  unfold specAltitude at hx
  simp only at hx
  split at hx
  · cases hx
  rename_i hub0
  split at hx
  swap
  · cases hx
  rename_i e0 e1 he0 he1
  simp only [Option.some.injEq] at hx
  have hublt : upper_bound t theta < t.length := (List.getElem?_eq_some.mp he1).1
  have hle := lower_bound_le_upper_bound t theta
  -- the first entry is below theta, so lower_bound is not begin()
  have hlb0 : lower_bound t theta ≠ 0 := by
    cases t with
    | nil => simp at he1
    | cons c cs =>
      have hc : c.1 < theta := hfirst c rfl
      simp only [lower_bound, if_pos hc]
      omega
  have hlblt : lower_bound t theta < t.length := by omega
  obtain ⟨p, hp⟩ : ∃ p, t[lower_bound t theta - 1]? = some p :=
    ⟨_, List.getElem?_eq_getElem (by omega)⟩
  obtain ⟨n, hn⟩ : ∃ n, t[lower_bound t theta]? = some n :=
    ⟨_, List.getElem?_eq_getElem hlblt⟩
  have hcode := getAltitude_eq m theta p n (by rw [ht]; exact hlb0)
    (by rw [ht]; exact hp) (by rw [ht]; exact hn)
  rw [hcode, ← hx]
  have hk0 : e0.1 ≤ theta := upper_bound_before t theta _ e0 (by omega) he0
  have hk1 : theta < e1.1 := upper_bound_at t theta e1 he1
  by_cases heq : lower_bound t theta = upper_bound t theta
  · -- theta is not a key: both lookups find the same pair
    rw [heq, he0] at hp
    rw [heq, he1] at hn
    cases hp
    cases hn
    push_cast
    rfl
  · -- theta is a key: the code finds it as the upper entry, the specification as the lower
    have hlt : lower_bound t theta < upper_bound t theta := by omega
    have hge : theta ≤ n.1 := lower_bound_at t theta _ hn
    have hle2 : n.1 ≤ theta := upper_bound_before t theta _ _ hlt hn
    have hkey : n.1 = theta := by omega
    have hub : upper_bound t theta = lower_bound t theta + 1 := by
      by_contra hne
      have h2 : lower_bound t theta + 1 < upper_bound t theta := by omega
      obtain ⟨d, hd⟩ : ∃ d, t[lower_bound t theta + 1]? = some d :=
        ⟨_, List.getElem?_eq_getElem (by omega)⟩
      have h3 := upper_bound_before t theta _ _ h2 hd
      have h4 := sorted_getElem?_lt t hs _ _ _ _ (Nat.lt_succ_self _) hn hd
      omega
    have he0n : e0 = n := by
      have h5 : upper_bound t theta - 1 = lower_bound t theta := by omega
      rw [h5, hn] at he0
      exact (Option.some.inj he0).symm
    have hprev : p.1 < n.1 := sorted_getElem?_lt t hs _ _ _ _ (by omega) hp hn
    subst he0n
    have hd1 : ((theta - p.1 : Int) : α) ≠ 0 := by
      have : theta - p.1 ≠ 0 := by omega
      exact_mod_cast this
    rw [hkey, Int.cast_mul, mul_div_assoc, div_self hd1]
    push_cast
    congr 1
    rw [sub_self, mul_zero, zero_div]
    ring

/-- C5 (witness): in the table of `leads = 3`, `bights = 5`, at the breakpoint key
`theta = 20`, the pair of the specification is `(20, 1)`, `(40, -1)` and the code
returns the same altitude `1`. -/
theorem getAltitude_refines_specAltitude_witness :
    construct 3 5 (40 : ℚ) 60 2 = Except.ok (constructed 3 5 (40 : ℚ) 60 2)
      ∧ (constructed 3 5 (40 : ℚ) 60 2).m_knownAltitudes.Pairwise (fun a b => a.1 < b.1)
      ∧ (∀ e, (constructed 3 5 (40 : ℚ) 60 2).m_knownAltitudes.head? = some e → e.1 < 20)
      ∧ specAltitude (constructed 3 5 (40 : ℚ) 60 2).m_knownAltitudes 20 = some (1 : ℚ)
      ∧ getAltitude (constructed 3 5 (40 : ℚ) 60 2) 20 = Except.ok (1 : ℚ) :=
  have hs : (constructed 3 5 (40 : ℚ) 60 2).m_knownAltitudes.Pairwise
      (fun a b => a.1 < b.1) := recordedAltitudes_sorted 3 5
  have hf : ∀ e, (constructed 3 5 (40 : ℚ) 60 2).m_knownAltitudes.head? = some e → e.1 < 20 := by
    intro e he
    have h : (constructed 3 5 (40 : ℚ) 60 2).m_knownAltitudes.head? = some (-20, -1) := by
      decide
    rw [h] at he
    cases he
    decide
  have hx : specAltitude (constructed 3 5 (40 : ℚ) 60 2).m_knownAltitudes 20
      = some (1 : ℚ) := by
    have h0 : (constructed 3 5 (40 : ℚ) 60 2).m_knownAltitudes[
        upper_bound (constructed 3 5 (40 : ℚ) 60 2).m_knownAltitudes 20 - 1]?
          = some (20, 1) := by decide
    have h1 : (constructed 3 5 (40 : ℚ) 60 2).m_knownAltitudes[
        upper_bound (constructed 3 5 (40 : ℚ) 60 2).m_knownAltitudes 20]?
          = some (40, -1) := by decide
    have hne : upper_bound (constructed 3 5 (40 : ℚ) 60 2).m_knownAltitudes 20 ≠ 0 := by
      decide
    unfold specAltitude
    simp only [if_neg hne, h0, h1]
    norm_num
  ⟨construct_eq 3 5 _ _ _ (by decide), hs, hf, hx,
    getAltitude_refines_specAltitude _ 20 1 hs hf hx⟩

/-! ## `setSourceHsv` -/

theorem truncToInt_of_nonneg {α : Type} [LinearOrderedField α] [FloorRing α] (x : α)
    (hx : 0 ≤ x) : truncToInt x = ⌊x⌋ := by
  unfold truncToInt
  rw [if_pos hx]

theorem floor_div_sixty_bounds {α : Type} [LinearOrderedField α] [FloorRing α] (h : α)
    (h0 : 0 ≤ h) (h360 : h < 360) : 0 ≤ ⌊h / 60⌋ ∧ ⌊h / 60⌋ ≤ 5 := by
  constructor
  · exact Int.floor_nonneg.mpr (div_nonneg h0 (by norm_num))
  · have hlt : ⌊h / 60⌋ < 6 := by
      rw [Int.floor_lt]
      rw [div_lt_iff₀ (by norm_num)]
      norm_num
      linarith
    omega

theorem setSourceHsv_of_floor {α : Type} [LinearOrderedField α] [FloorRing α]
    (h s v : α) (ctx : Canvas α) (hi : Int) (f p q t : α)
    (h0 : 0 ≤ h) (h360 : h < 360)
    (hhi : hi = ⌊h / 60⌋) (hf : f = h / 60 - (hi : α)) (hp : p = v * (1 - s))
    (hq : q = v * (1 - f * s)) (ht : t = v * (1 - (1 - f) * s)) :
    (0 ≤ hi ∧ hi ≤ 5)
      ∧ setSourceHsv h s v ctx
          = ctx ++ [if hi = 0 then Cmd.set_source_rgb v t p
                    else if hi = 1 then Cmd.set_source_rgb q v p
                    else if hi = 2 then Cmd.set_source_rgb p v t
                    else if hi = 3 then Cmd.set_source_rgb p q v
                    else if hi = 4 then Cmd.set_source_rgb t p v
                    else Cmd.set_source_rgb v p q] := by
  have hb := floor_div_sixty_bounds h h0 h360
  rw [← hhi] at hb
  have htr : truncToInt (h / 60) = hi := by
    rw [truncToInt_of_nonneg _ (div_nonneg h0 (by norm_num)), hhi]
  have hmod : Int.tmod hi 60 = hi := Int.tmod_eq_of_lt hb.1 (by omega)
  refine ⟨hb, ?_⟩
  unfold setSourceHsv
  simp only [htr, hmod, ← hf, ← hp, ← hq, ← ht]
  have hcases : hi = 0 ∨ hi = 1 ∨ hi = 2 ∨ hi = 3 ∨ hi = 4 ∨ hi = 5 := by omega
  rcases hcases with h' | h' | h' | h' | h' | h' <;> subst h' <;> simp

/-- C6: for `0 ≤ h < 360` the sector `hi = floor(h / 60)` lies in `0..5` and
`setSourceHsv` appends exactly one `set_source_rgb`, with the arguments of the
six-sector transform: `(v,t,p)`, `(q,v,p)`, `(p,v,t)`, `(p,q,v)`, `(t,p,v)`, `(v,p,q)`
for the sectors 0 to 5, where `f = h / 60 - hi`, `p = v (1 - s)`, `q = v (1 - f s)`,
`t = v (1 - (1 - f) s)`.  It holds for all `s` and `v`, in particular in `[0, 1]`. -/
theorem setSourceHsv_six_sectors {α : Type} [LinearOrderedField α] [FloorRing α]
    (h s v : α) (ctx : Canvas α) (hi : Int) (f p q t : α)
    (h0 : 0 ≤ h) (h360 : h < 360)
    (hhi : hi = ⌊h / 60⌋) (hf : f = h / 60 - (hi : α)) (hp : p = v * (1 - s))
    (hq : q = v * (1 - f * s)) (ht : t = v * (1 - (1 - f) * s)) :
    (0 ≤ hi ∧ hi ≤ 5)
      ∧ setSourceHsv h s v ctx
          = ctx ++ [if hi = 0 then Cmd.set_source_rgb v t p
                    else if hi = 1 then Cmd.set_source_rgb q v p
                    else if hi = 2 then Cmd.set_source_rgb p v t
                    else if hi = 3 then Cmd.set_source_rgb p q v
                    else if hi = 4 then Cmd.set_source_rgb t p v
                    else Cmd.set_source_rgb v p q] :=
  setSourceHsv_of_floor h s v ctx hi f p q t h0 h360 hhi hf hp hq ht

/-- C6 (witness): the four colours of the specification,
`(0,0,1) ↦ (1,1,1)`, `(0,1,1) ↦ (1,0,0)`, `(120,1,1) ↦ (0,1,0)`, `(240,1,1) ↦ (0,0,1)`. -/
theorem setSourceHsv_six_sectors_witness :
    ((0 : ℚ) ≤ 0 ∧ (0 : ℚ) < 360 ∧ (0 : ℚ) ≤ 120 ∧ (120 : ℚ) < 360 ∧ (240 : ℚ) < 360)
      ∧ setSourceHsv (0 : ℚ) 0 1 [] = [Cmd.set_source_rgb 1 1 1]
      ∧ setSourceHsv (0 : ℚ) 1 1 [] = [Cmd.set_source_rgb 1 0 0]
      ∧ setSourceHsv (120 : ℚ) 1 1 [] = [Cmd.set_source_rgb 0 1 0]
      ∧ setSourceHsv (240 : ℚ) 1 1 [] = [Cmd.set_source_rgb 0 0 1] := by
  have f0 : (0 : Int) = ⌊(0 : ℚ) / 60⌋ := by norm_num
  have f2 : (2 : Int) = ⌊(120 : ℚ) / 60⌋ := by
    symm
    rw [Int.floor_eq_iff]
    norm_num
  have f4 : (4 : Int) = ⌊(240 : ℚ) / 60⌋ := by
    symm
    rw [Int.floor_eq_iff]
    norm_num
  refine ⟨by norm_num, ?_, ?_, ?_, ?_⟩
  · simpa using (setSourceHsv_six_sectors (0 : ℚ) 0 1 [] 0 0 1 1 1 (by norm_num) (by norm_num)
      f0 (by norm_num) (by norm_num) (by norm_num) (by norm_num)).2
  · simpa using (setSourceHsv_six_sectors (0 : ℚ) 1 1 [] 0 0 0 1 0 (by norm_num) (by norm_num)
      f0 (by norm_num) (by norm_num) (by norm_num) (by norm_num)).2
  · simpa using (setSourceHsv_six_sectors (120 : ℚ) 1 1 [] 2 0 0 1 0 (by norm_num)
      (by norm_num) f2 (by norm_num) (by norm_num) (by norm_num) (by norm_num)).2
  · simpa using (setSourceHsv_six_sectors (240 : ℚ) 1 1 [] 4 0 0 1 0 (by norm_num)
      (by norm_num) f4 (by norm_num) (by norm_num) (by norm_num) (by norm_num)).2

theorem setSourceHsv_360 {α : Type} [LinearOrderedField α] [FloorRing α] (s v : α)
    (ctx : Canvas α) : setSourceHsv 360 s v ctx = ctx := by
  have h6 : (360 : α) / 60 = ((6 : Int) : α) := by norm_num
  have htr : truncToInt ((360 : α) / 60) = 6 := by
    rw [truncToInt_of_nonneg _ (by norm_num), h6, Int.floor_intCast]
  unfold setSourceHsv
  simp only [htr]
  have hm : Int.tmod 6 60 = 6 := by decide
  simp [hm]

theorem setSourceHsv_0 {α : Type} [LinearOrderedField α] [FloorRing α] (s v : α)
    (ctx : Canvas α) :
    setSourceHsv 0 s v ctx = ctx ++ [Cmd.set_source_rgb v (v * (1 - s)) (v * (1 - s))] := by
  have htr : truncToInt ((0 : α) / 60) = 0 := by
    rw [truncToInt_of_nonneg _ (by norm_num), zero_div, Int.floor_zero]
  unfold setSourceHsv
  simp only [htr]
  simp

/-- C7 (failing input): for `h = 360` the code computes `hi = 6` and `hi %= 60`
leaves `6`, which no `case` of the `switch` handles: nothing is appended, for any
`s` and `v`.  The wrapped hue `360 - 360 * floor(360 / 360) = 0` does get a colour. -/
theorem setSourceHsv_drops_full_turn {α : Type} [LinearOrderedField α] [FloorRing α]
    (s v : α) (ctx : Canvas α) :
    Int.tmod (truncToInt ((360 : α) / 60)) 60 = 6
      ∧ setSourceHsv 360 s v ctx = ctx
      ∧ (360 : α) - 360 * ((⌊(360 : α) / 360⌋ : Int) : α) = 0
      ∧ setSourceHsv ((360 : α) - 360 * ((⌊(360 : α) / 360⌋ : Int) : α)) s v ctx
          = ctx ++ [Cmd.set_source_rgb v (v * (1 - s)) (v * (1 - s))] := by
  have h6 : (360 : α) / 60 = ((6 : Int) : α) := by norm_num
  have htr : truncToInt ((360 : α) / 60) = 6 := by
    rw [truncToInt_of_nonneg _ (by norm_num), h6, Int.floor_intCast]
  have h1 : (360 : α) / 360 = ((1 : Int) : α) := by norm_num
  have hw : (360 : α) - 360 * ((⌊(360 : α) / 360⌋ : Int) : α) = 0 := by
    rw [h1, Int.floor_intCast]
    norm_num
  refine ⟨by rw [htr]; decide, setSourceHsv_360 s v ctx, hw, ?_⟩
  rw [hw]
  exact setSourceHsv_0 s v ctx

/-! ## The drawing loops -/

theorem setSourceHsv_append {α : Type} [LinearOrderedField α] [FloorRing α] (h s v : α)
    (ctx : Canvas α) : setSourceHsv h s v ctx = ctx ++ setSourceHsv h s v [] := by
  unfold setSourceHsv
  simp only
  split_ifs <;> simp

theorem drawSegment_append {α : Type} [LinearOrderedField α] (M : CMath α) (m : TurksHead α)
    (theta : Int) (ctx : Canvas α) :
    drawSegment M m theta ctx = ctx ++ drawSegment M m theta [] := by
  unfold drawSegment
  simp

theorem altitudeAt_of_ok {α : Type} [LinearOrderedField α] (m : TurksHead α) (theta : Int)
    (z : α) (h : getAltitude m theta = Except.ok z) : altitudeAt m theta = z := by
  unfold altitudeAt
  rw [h]

theorem drawPathStep_ok {α : Type} [LinearOrderedField α] [FloorRing α] (M : CMath α)
    (m : TurksHead α) (onlyPositiveZ : Bool) (ctx : Canvas α) (theta : Int) (z : α)
    (h : getAltitude m theta = Except.ok z) :
    drawPathStep M m onlyPositiveZ ctx theta
      = Except.ok (ctx ++ segmentCalls M m onlyPositiveZ theta) := by
  unfold drawPathStep segmentCalls
  rw [altitudeAt_of_ok m theta z h, h]
  simp only
  split
  · rw [setSourceHsv_append, drawSegment_append, List.append_assoc, List.append_assoc]
    congr 1
    rw [drawSegment_append M m theta (setSourceHsv _ _ _ []), List.append_assoc]
  · simp

theorem drawPathStep_error {α : Type} [LinearOrderedField α] [FloorRing α] (M : CMath α)
    (m : TurksHead α) (onlyPositiveZ : Bool) (ctx : Canvas α) (theta : Int) (e : Failure)
    (h : getAltitude m theta = Except.error e) :
    drawPathStep M m onlyPositiveZ ctx theta = Except.error e := by
  unfold drawPathStep
  rw [h]

theorem foldlM_appending {α : Type} (step : Canvas α → Int → Except Failure (Canvas α))
    (calls : Int → List (Cmd α)) (xs : List Int) :
    ∀ ctx : Canvas α, (∀ x ∈ xs, ∀ c : Canvas α, step c x = Except.ok (c ++ calls x)) →
      xs.foldlM step ctx = Except.ok (ctx ++ xs.flatMap calls) := by
  induction xs with
  | nil => intro ctx _; simp [List.flatMap]; rfl
  | cons x xs ih =>
    intro ctx h
    rw [List.foldlM_cons, h x (List.mem_cons_self _ _) ctx]
    show xs.foldlM step (ctx ++ calls x) = _
    rw [ih _ (fun y hy c => h y (List.mem_cons_of_mem _ hy) c)]
    simp [List.flatMap]

theorem foldlM_first_error {α : Type} (step : Canvas α → Int → Except Failure (Canvas α))
    (x : Int) (xs : List Int) (ctx : Canvas α) (e : Failure)
    (h : step ctx x = Except.error e) : (x :: xs).foldlM step ctx = Except.error e := by
  rw [List.foldlM_cons, h]
  rfl

theorem countP_flatMap_sum {α β : Type} (p : β → Bool) (g : α → List β) (xs : List α) :
    (xs.flatMap g).countP p = (xs.map (fun x => (g x).countP p)).sum := by
  induction xs with
  | nil => simp [List.flatMap]
  | cons x xs ih =>
    have h : (x :: xs).flatMap g = g x ++ xs.flatMap g := by simp [List.flatMap]
    rw [h, List.countP_append, ih, List.map_cons, List.sum_cons]

theorem sum_map_const_one {α : Type} (xs : List α) (g : α → Nat) (c : Nat)
    (h : ∀ x ∈ xs, g x = c) : (xs.map g).sum = xs.length * c := by
  induction xs with
  | nil => simp
  | cons x xs ih =>
    rw [List.map_cons, List.sum_cons, h x (List.mem_cons_self _ _),
      ih (fun y hy => h y (List.mem_cons_of_mem _ hy)), List.length_cons]
    ring

/-! ### Runs with at least two leads -/

theorem drawPath_ok {α : Type} [LinearOrderedField α] [FloorRing α] (M : CMath α)
    (leads bights : Int) (innerRadius outerRadius lineWidth : α)
    (hl : 2 ≤ leads) (hb : 1 ≤ bights) (path : Int) (onlyPositiveZ : Bool) (ctx : Canvas α) :
    drawPath M (constructed leads bights innerRadius outerRadius lineWidth) path onlyPositiveZ ctx
      = Except.ok (ctx ++ pathCalls M
          (constructed leads bights innerRadius outerRadius lineWidth) onlyPositiveZ) := by
  unfold drawPath pathCalls
  apply foldlM_appending
  intro theta hth c
  rw [mem_intRange] at hth
  obtain ⟨p, n, _, _, _, hz⟩ := getAltitude_defined leads bights innerRadius outerRadius
    lineWidth hl hb theta hth.1 hth.2
  exact drawPathStep_ok M _ onlyPositiveZ c theta _ hz

theorem drawPaths_ok {α : Type} [LinearOrderedField α] [FloorRing α] (M : CMath α)
    (leads bights : Int) (innerRadius outerRadius lineWidth : α)
    (hl : 2 ≤ leads) (hb : 1 ≤ bights) (onlyPositiveZ : Bool) (ctx : Canvas α) :
    drawPaths M (constructed leads bights innerRadius outerRadius lineWidth) onlyPositiveZ ctx
      = Except.ok (ctx ++ passCalls M
          (constructed leads bights innerRadius outerRadius lineWidth) onlyPositiveZ) := by
  unfold drawPaths passCalls
  apply foldlM_appending
  intro path _ c
  unfold drawPathsStep
  rw [drawPath_ok M leads bights innerRadius outerRadius lineWidth hl hb]
  simp

theorem draw_ok {α : Type} [LinearOrderedField α] [FloorRing α] (M : CMath α)
    (leads bights : Int) (innerRadius outerRadius lineWidth : α)
    (hl : 2 ≤ leads) (hb : 1 ≤ bights) (ctx : Canvas α) :
    draw M (constructed leads bights innerRadius outerRadius lineWidth) ctx
      = Except.ok (ctx ++ [Cmd.save]
          ++ passCalls M (constructed leads bights innerRadius outerRadius lineWidth) false
          ++ passCalls M (constructed leads bights innerRadius outerRadius lineWidth) true
          ++ [Cmd.restore]) := by
  unfold draw
  rw [drawPaths_ok M leads bights innerRadius outerRadius lineWidth hl hb]
  simp only
  rw [drawPaths_ok M leads bights innerRadius outerRadius lineWidth hl hb]

/-! ### Runs with one lead -/

theorem getAltitude_one_lead {α : Type} [LinearOrderedField α] (bights : Int)
    (innerRadius outerRadius lineWidth : α) (theta : Int) :
    getAltitude (constructed 1 bights innerRadius outerRadius lineWidth) theta
      = Except.error Failure.InternalInvariantViolation := by
  have ht : (constructed 1 bights innerRadius outerRadius lineWidth).m_knownAltitudes = [] :=
    recordedAltitudes_one_lead bights
  unfold getAltitude
  rw [ht]
  rfl

theorem drawPath_one_lead {α : Type} [LinearOrderedField α] [FloorRing α] (M : CMath α)
    (bights : Int) (innerRadius outerRadius lineWidth : α) (hb : 1 ≤ bights)
    (path : Int) (onlyPositiveZ : Bool) (ctx : Canvas α) :
    drawPath M (constructed 1 bights innerRadius outerRadius lineWidth) path onlyPositiveZ ctx
      = Except.error Failure.InternalInvariantViolation := by
  have hmax := (constructed_maxTheta_bounds 1 bights innerRadius outerRadius lineWidth
    (le_refl _) hb).1
  unfold drawPath
  rw [intRange_cons 0 _ (le_of_lt hmax)]
  exact foldlM_first_error _ _ _ _ _
    (drawPathStep_error M _ onlyPositiveZ ctx 0 _ (getAltitude_one_lead bights _ _ _ 0))

theorem drawPaths_one_lead {α : Type} [LinearOrderedField α] [FloorRing α] (M : CMath α)
    (bights : Int) (innerRadius outerRadius lineWidth : α) (hb : 1 ≤ bights)
    (onlyPositiveZ : Bool) (ctx : Canvas α) :
    drawPaths M (constructed 1 bights innerRadius outerRadius lineWidth) onlyPositiveZ ctx
      = Except.error Failure.InternalInvariantViolation := by
  have hp : (constructed 1 bights innerRadius outerRadius lineWidth).m_paths = 1 := by
    show ((Int.gcd bights 1 : Int)) = 1
    simp
  unfold drawPaths
  rw [hp, intRange_cons 0 _ (by decide)]
  apply foldlM_first_error
  unfold drawPathsStep
  rw [drawPath_one_lead M bights innerRadius outerRadius lineWidth hb]

/-! ## Counting the calls of a pass -/

theorem intRange_succ_right (lo hi : Int) (h : lo ≤ hi + 1) :
    intRange lo (hi + 1) = intRange lo hi ++ [hi + 1] := by
  unfold intRange
  have hn : (hi + 1 + 1 - lo).toNat = (hi + 1 - lo).toNat + 1 := by omega
  rw [hn, List.range_succ, List.map_append, List.map_singleton]
  congr 2
  omega

theorem countP_isFill_setSourceHsv {α : Type} [LinearOrderedField α] [FloorRing α]
    (h s v : α) : (setSourceHsv h s v []).countP isFill = 0 := by
  unfold setSourceHsv
  simp only
  split_ifs <;> simp [isFill]

theorem countP_isFill_drawSegment {α : Type} [LinearOrderedField α] (M : CMath α)
    (m : TurksHead α) (theta : Int) (ctx : Canvas α) :
    (drawSegment M m theta ctx).countP isFill = ctx.countP isFill := by
  unfold drawSegment
  simp [List.countP_append, isFill]

theorem countP_isSetSourceRgb_drawSegment {α : Type} [LinearOrderedField α] (M : CMath α)
    (m : TurksHead α) (theta : Int) (ctx : Canvas α) :
    (drawSegment M m theta ctx).countP isSetSourceRgb = ctx.countP isSetSourceRgb := by
  unfold drawSegment
  simp [List.countP_append, isSetSourceRgb]

theorem countP_isSaveOrRestore_drawSegment {α : Type} [LinearOrderedField α] (M : CMath α)
    (m : TurksHead α) (theta : Int) (ctx : Canvas α) :
    (drawSegment M m theta ctx).countP isSaveOrRestore = ctx.countP isSaveOrRestore := by
  unfold drawSegment
  simp [List.countP_append, isSaveOrRestore]

theorem countP_isSaveOrRestore_setSourceHsv {α : Type} [LinearOrderedField α] [FloorRing α]
    (h s v : α) : (setSourceHsv h s v []).countP isSaveOrRestore = 0 := by
  unfold setSourceHsv
  simp only
  split_ifs <;> simp [isSaveOrRestore]

theorem countP_isSetSourceRgb_in_range {α : Type} [LinearOrderedField α] [FloorRing α]
    (h s v : α) (h0 : 0 ≤ h) (h360 : h < 360) :
    (setSourceHsv h s v []).countP isSetSourceRgb = 1 := by
  have hsec := (setSourceHsv_of_floor h s v [] ⌊h / 60⌋ _ _ _ _ h0 h360 rfl rfl rfl rfl rfl).2
  rw [hsec]
  simp only [List.nil_append]
  split_ifs <;> simp [isSetSourceRgb]

theorem countP_isFill_segmentCalls {α : Type} [LinearOrderedField α] [FloorRing α]
    (M : CMath α) (m : TurksHead α) (onlyPositiveZ : Bool) (theta : Int) :
    (segmentCalls M m onlyPositiveZ theta).countP isFill
      = if !onlyPositiveZ || decide (altitudeAt m theta > 0) then 1 else 0 := by
  unfold segmentCalls
  split
  · rw [List.countP_append, countP_isFill_drawSegment, countP_isFill_setSourceHsv]
    simp [isFill]
  · simp

theorem countP_isSaveOrRestore_segmentCalls {α : Type} [LinearOrderedField α] [FloorRing α]
    (M : CMath α) (m : TurksHead α) (onlyPositiveZ : Bool) (theta : Int) :
    (segmentCalls M m onlyPositiveZ theta).countP isSaveOrRestore = 0 := by
  unfold segmentCalls
  split
  · rw [List.countP_append, countP_isSaveOrRestore_drawSegment,
      countP_isSaveOrRestore_setSourceHsv]
    simp [isSaveOrRestore]
  · simp

theorem countP_isFill_pathCalls_unfiltered {α : Type} [LinearOrderedField α] [FloorRing α]
    (M : CMath α) (m : TurksHead α) :
    (pathCalls M m false).countP isFill = (m.m_maxThetaOnPath + 1).toNat := by
  unfold pathCalls
  rw [countP_flatMap_sum, sum_map_const_one _ _ 1, intRange_length]
  · simp
  · intro theta _
    rw [countP_isFill_segmentCalls]
    simp

theorem countP_isFill_pathCalls_filtered {α : Type} [LinearOrderedField α] [FloorRing α]
    (M : CMath α) (m : TurksHead α) :
    (pathCalls M m true).countP isFill
      = (intRange 0 m.m_maxThetaOnPath).countP (fun theta => decide (altitudeAt m theta > 0)) := by
  unfold pathCalls
  rw [countP_flatMap_sum]
  induction intRange 0 m.m_maxThetaOnPath with
  | nil => simp
  | cons x xs ih =>
    rw [List.map_cons, List.sum_cons, ih, countP_isFill_segmentCalls, List.countP_cons]
    simp only [Bool.not_true, Bool.false_or]
    omega

theorem countP_isSaveOrRestore_pathCalls {α : Type} [LinearOrderedField α] [FloorRing α]
    (M : CMath α) (m : TurksHead α) (onlyPositiveZ : Bool) :
    (pathCalls M m onlyPositiveZ).countP isSaveOrRestore = 0 := by
  unfold pathCalls
  rw [countP_flatMap_sum, sum_map_const_one _ _ 0
    (fun theta _ => countP_isSaveOrRestore_segmentCalls M m onlyPositiveZ theta)]
  simp

theorem countP_passCalls {α : Type} [LinearOrderedField α] [FloorRing α]
    (M : CMath α) (m : TurksHead α) (onlyPositiveZ : Bool) (p : Cmd α → Bool)
    (hp : ∀ a, p (Cmd.rotate a) = false) :
    (passCalls M m onlyPositiveZ).countP p
      = m.m_paths.toNat * (pathCalls M m onlyPositiveZ).countP p := by
  unfold passCalls
  rw [countP_flatMap_sum, sum_map_const_one _ _ ((pathCalls M m onlyPositiveZ).countP p),
    intRange_length]
  · congr 1
    omega
  · intro _ _
    rw [List.countP_append]
    simp [hp]

theorem countP_isSetSourceRgb_pathCalls_unfiltered {α : Type} [LinearOrderedField α]
    [FloorRing α] (M : CMath α) (m : TurksHead α) (hmax : 0 < m.m_maxThetaOnPath) :
    (pathCalls M m false).countP isSetSourceRgb = m.m_maxThetaOnPath.toNat := by
  have hmaxα : (0 : α) < (m.m_maxThetaOnPath : α) := by exact_mod_cast hmax
  have hsplit : intRange 0 m.m_maxThetaOnPath
      = intRange 0 (m.m_maxThetaOnPath - 1) ++ [m.m_maxThetaOnPath] := by
    have h := intRange_succ_right 0 (m.m_maxThetaOnPath - 1) (by omega)
    rw [sub_add_cancel] at h
    exact h
  unfold pathCalls
  rw [countP_flatMap_sum, hsplit, List.map_append, List.sum_append,
    sum_map_const_one _ _ 1, intRange_length]
  · -- the last step, at the hue 360
    have hlast : (segmentCalls M m false m.m_maxThetaOnPath).countP isSetSourceRgb = 0 := by
      unfold segmentCalls
      simp only [Bool.not_false, Bool.true_or, if_true]
      have hhue : (m.m_maxThetaOnPath : α) * 360 / (m.m_maxThetaOnPath : α) = 360 := by
        field_simp
      rw [hhue, List.countP_append, countP_isSetSourceRgb_drawSegment, setSourceHsv_360]
      simp [isSetSourceRgb]
    simp only [List.map_singleton, List.sum_singleton, hlast]
    omega
  · -- the steps before, at a hue in [0, 360)
    intro theta hth
    rw [mem_intRange] at hth
    unfold segmentCalls
    simp only [Bool.not_false, Bool.true_or, if_true]
    rw [List.countP_append, countP_isSetSourceRgb_drawSegment]
    have hth0 : (0 : α) ≤ (theta : α) := by exact_mod_cast hth.1
    have hthlt : (theta : α) < (m.m_maxThetaOnPath : α) := by
      have : theta < m.m_maxThetaOnPath := by omega
      exact_mod_cast this
    rw [countP_isSetSourceRgb_in_range _ _ _
      (div_nonneg (mul_nonneg hth0 (by norm_num)) (le_of_lt hmaxα))
      (by rw [div_lt_iff₀ hmaxα]; nlinarith)]
    simp [isSetSourceRgb]

/-! ## The passes of `draw` -/

/-- In the closed form `constructed` with at least two leads a pass returns; the
unfiltered pass fills once per
`theta` in `0 .. m_maxThetaOnPath` and per path, the filtered pass once per `theta`
with a positive altitude and per path. -/
theorem drawPaths_fill_counts {α : Type} [LinearOrderedField α] [FloorRing α] (M : CMath α)
    (leads bights : Int) (innerRadius outerRadius lineWidth : α)
    (hl : 2 ≤ leads) (hb : 1 ≤ bights) (ctx : Canvas α) :
    drawPaths M (constructed leads bights innerRadius outerRadius lineWidth) false ctx
        = Except.ok (ctx ++ passCalls M
            (constructed leads bights innerRadius outerRadius lineWidth) false)
      ∧ (passCalls M (constructed leads bights innerRadius outerRadius lineWidth) false).countP
            isFill
          = (constructed leads bights innerRadius outerRadius lineWidth).m_paths.toNat
            * ((constructed leads bights innerRadius outerRadius lineWidth).m_maxThetaOnPath
                + 1).toNat
      ∧ drawPaths M (constructed leads bights innerRadius outerRadius lineWidth) true ctx
          = Except.ok (ctx ++ passCalls M
              (constructed leads bights innerRadius outerRadius lineWidth) true)
      ∧ (passCalls M (constructed leads bights innerRadius outerRadius lineWidth) true).countP
            isFill
          = (constructed leads bights innerRadius outerRadius lineWidth).m_paths.toNat
            * (intRange 0
                (constructed leads bights innerRadius outerRadius lineWidth).m_maxThetaOnPath).countP
                (fun theta => decide
                  (altitudeAt (constructed leads bights innerRadius outerRadius lineWidth) theta
                    > 0)) := by
  refine ⟨drawPaths_ok M leads bights _ _ _ hl hb false ctx, ?_,
    drawPaths_ok M leads bights _ _ _ hl hb true ctx, ?_⟩
  · rw [countP_passCalls M _ false isFill (fun _ => rfl), countP_isFill_pathCalls_unfiltered]
  · rw [countP_passCalls M _ true isFill (fun _ => rfl), countP_isFill_pathCalls_filtered]

/-- In the closed form `constructed` with at least two leads `draw` returns, and the
calls it appends are `save`, the
calls of the unfiltered pass, the calls of the filtered pass, `restore`; the passes
contain no `save` and no `restore`. -/
theorem draw_bracketed {α : Type} [LinearOrderedField α] [FloorRing α] (M : CMath α)
    (leads bights : Int) (innerRadius outerRadius lineWidth : α)
    (hl : 2 ≤ leads) (hb : 1 ≤ bights) (ctx : Canvas α) :
    draw M (constructed leads bights innerRadius outerRadius lineWidth) ctx
        = Except.ok (ctx ++ [Cmd.save]
            ++ passCalls M (constructed leads bights innerRadius outerRadius lineWidth) false
            ++ passCalls M (constructed leads bights innerRadius outerRadius lineWidth) true
            ++ [Cmd.restore])
      ∧ (∀ onlyPositiveZ,
          (passCalls M (constructed leads bights innerRadius outerRadius lineWidth)
            onlyPositiveZ).countP isSaveOrRestore = 0) := by
  refine ⟨draw_ok M leads bights _ _ _ hl hb ctx, ?_⟩
  intro onlyPositiveZ
  rw [countP_passCalls M _ onlyPositiveZ isSaveOrRestore (fun _ => rfl),
    countP_isSaveOrRestore_pathCalls, Nat.mul_zero]

theorem constructed_3_5 {α : Type} [LinearOrderedField α] (innerRadius outerRadius lineWidth : α) :
    (constructed 3 5 innerRadius outerRadius lineWidth).m_paths = 1
      ∧ (constructed 3 5 innerRadius outerRadius lineWidth).m_maxThetaOnPath = 600 :=
  ⟨by show ((Int.gcd 5 3 : Int)) = 1; decide,
   by show Int.tdiv (2 * 3 * 5 * s_stepsTheta) (Int.gcd 5 3 : Int) = 600; decide⟩

theorem getAltitude_3_5_at_600 {α : Type} [LinearOrderedField α]
    (innerRadius outerRadius lineWidth : α) :
    getAltitude (constructed 3 5 innerRadius outerRadius lineWidth) 600 = Except.ok 0 := by
  have hlb : lower_bound (constructed 3 5 innerRadius outerRadius lineWidth).m_knownAltitudes 600
      = 21 := by
    show lower_bound (recordedAltitudes 3 5) 600 = 21
    decide
  have hp : (constructed 3 5 innerRadius outerRadius lineWidth).m_knownAltitudes[
      lower_bound (constructed 3 5 innerRadius outerRadius lineWidth).m_knownAltitudes 600 - 1]?
        = some (580, -1) := by
    rw [hlb]
    show (recordedAltitudes 3 5)[20]? = some (580, -1)
    decide
  have hn : (constructed 3 5 innerRadius outerRadius lineWidth).m_knownAltitudes[
      lower_bound (constructed 3 5 innerRadius outerRadius lineWidth).m_knownAltitudes 600]?
        = some (620, 1) := by
    rw [hlb]
    show (recordedAltitudes 3 5)[21]? = some (620, 1)
    decide
  rw [getAltitude_eq _ 600 _ _ (by rw [hlb]; decide) hp hn]
  norm_num

theorem getAltitude_3_5_at_0 {α : Type} [LinearOrderedField α]
    (innerRadius outerRadius lineWidth : α) :
    getAltitude (constructed 3 5 innerRadius outerRadius lineWidth) 0 = Except.ok 0 := by
  have hlb : lower_bound (constructed 3 5 innerRadius outerRadius lineWidth).m_knownAltitudes 0
      = 1 := by
    show lower_bound (recordedAltitudes 3 5) 0 = 1
    decide
  have hp : (constructed 3 5 innerRadius outerRadius lineWidth).m_knownAltitudes[
      lower_bound (constructed 3 5 innerRadius outerRadius lineWidth).m_knownAltitudes 0 - 1]?
        = some (-20, -1) := by
    rw [hlb]
    show (recordedAltitudes 3 5)[0]? = some (-20, -1)
    decide
  have hn : (constructed 3 5 innerRadius outerRadius lineWidth).m_knownAltitudes[
      lower_bound (constructed 3 5 innerRadius outerRadius lineWidth).m_knownAltitudes 0]?
        = some (20, 1) := by
    rw [hlb]
    show (recordedAltitudes 3 5)[1]? = some (20, 1)
    decide
  rw [getAltitude_eq _ 0 _ _ (by rw [hlb]; decide) hp hn]
  norm_num

theorem countP_lt_length_of_mem {β : Type} (p : β → Bool) (xs : List β) (x : β)
    (hx : x ∈ xs) (hpx : p x = false) : xs.countP p < xs.length := by
  have hle := @List.countP_le_length _ p xs
  have hne : xs.countP p ≠ xs.length := by
    intro h
    have := List.countP_eq_length.mp h x hx
    rw [hpx] at this
    cases this
  omega

/-- The example of the specification: for `leads = 3`, `bights = 5` the unfiltered
pass fills 601 segments and the filtered pass fewer. -/
theorem drawPaths_3_5_fill_counts {α : Type} [LinearOrderedField α] [FloorRing α]
    (M : CMath α) (innerRadius outerRadius lineWidth : α) (ctx : Canvas α) :
    drawPaths M (constructed 3 5 innerRadius outerRadius lineWidth) false ctx
        = Except.ok (ctx ++ passCalls M (constructed 3 5 innerRadius outerRadius lineWidth) false)
      ∧ (passCalls M (constructed 3 5 innerRadius outerRadius lineWidth) false).countP isFill
          = 601
      ∧ drawPaths M (constructed 3 5 innerRadius outerRadius lineWidth) true ctx
          = Except.ok (ctx ++ passCalls M (constructed 3 5 innerRadius outerRadius lineWidth) true)
      ∧ (passCalls M (constructed 3 5 innerRadius outerRadius lineWidth) true).countP isFill
          < 601 := by
  obtain ⟨h1, h2, h3, h4⟩ := drawPaths_fill_counts M 3 5 innerRadius outerRadius lineWidth
    (by decide) (by decide) ctx
  obtain ⟨hp, hm⟩ := constructed_3_5 innerRadius outerRadius lineWidth
  refine ⟨h1, ?_, h3, ?_⟩
  · rw [h2, hp, hm]
    rfl
  · rw [h4, hp, hm]
    have hlen : (intRange 0 600).length = 601 := by
      rw [intRange_length]
      rfl
    have hlt := countP_lt_length_of_mem
      (fun theta => decide
        (altitudeAt (constructed 3 5 innerRadius outerRadius lineWidth) theta > 0))
      (intRange 0 600) 0 ((mem_intRange 0 600 0).mpr ⟨by decide, by decide⟩)
      (by
        show decide (altitudeAt (constructed 3 5 innerRadius outerRadius lineWidth) 0 > 0)
          = false
        rw [altitudeAt_of_ok _ 0 0 (getAltitude_3_5_at_0 innerRadius outerRadius lineWidth)]
        simp)
    rw [hlen] at hlt
    simpa using hlt

/-- C8 (failing input): for `leads = 3`, `bights = 5` the unfiltered pass reaches
`theta = 600 = m_maxThetaOnPath`, where the altitude is `0` and the hue is
`600 * 360 / 600 = 360`: `setSourceHsv` appends nothing and the segment is filled
without a colour of its own.  One run of `drawPath` makes 601 `fill` calls and
600 `set_source_rgb` calls. -/
theorem drawPath_last_segment_without_colour {α : Type} [LinearOrderedField α] [FloorRing α]
    (M : CMath α) (innerRadius outerRadius lineWidth : α) (ctx : Canvas α) :
    ∃ m, construct 3 5 innerRadius outerRadius lineWidth = Except.ok m
      ∧ m.m_maxThetaOnPath = 600
      ∧ getAltitude m 600 = Except.ok 0
      ∧ setSourceHsv (((600 : Int) : α) * 360 / (m.m_maxThetaOnPath : α)) (1 / 2)
            (1 / 2 + 0 / 2) ctx = ctx
      ∧ drawPathStep M m false ctx 600 = Except.ok (drawSegment M m 600 ctx ++ [Cmd.fill])
      ∧ drawPath M m 0 false ctx = Except.ok (ctx ++ pathCalls M m false)
      ∧ (pathCalls M m false).countP isFill = 601
      ∧ (pathCalls M m false).countP isSetSourceRgb = 600 := by
  rw [construct_eq 3 5 _ _ _ (by decide)]
  obtain ⟨_, hm⟩ := constructed_3_5 innerRadius outerRadius lineWidth
  have hz := getAltitude_3_5_at_600 innerRadius outerRadius lineWidth
  have hhue : ((600 : Int) : α) * 360
      / ((constructed 3 5 innerRadius outerRadius lineWidth).m_maxThetaOnPath : α) = 360 := by
    rw [hm]
    norm_num
  refine ⟨_, rfl, hm, hz, ?_, ?_, drawPath_ok M 3 5 _ _ _ (by decide) (by decide) 0 false ctx,
    ?_, ?_⟩
  · rw [hhue, setSourceHsv_360]
  · unfold drawPathStep
    rw [hz]
    simp only [Bool.not_false, Bool.true_or, if_true]
    rw [hhue, setSourceHsv_360]
  · rw [countP_isFill_pathCalls_unfiltered, hm]
    rfl
  · rw [countP_isSetSourceRgb_pathCalls_unfiltered M _ (by rw [hm]; decide), hm]
    rfl

/-- C9 (failing input): for `leads = 1`, `bights = 1` there is one path and
`m_maxThetaOnPath = 40`, so the unfiltered pass should fill 41 segments; both passes
stop at the first assertion of `getAltitude( 0 )` before any call on the context. -/
theorem drawPaths_stops_with_one_lead {α : Type} [LinearOrderedField α] [FloorRing α]
    (M : CMath α) (innerRadius outerRadius lineWidth : α) (ctx : Canvas α) :
    ∃ m, construct 1 1 innerRadius outerRadius lineWidth = Except.ok m
      ∧ m.m_paths = 1
      ∧ m.m_maxThetaOnPath = 40
      ∧ drawPaths M m false ctx = Except.error Failure.InternalInvariantViolation
      ∧ drawPaths M m true ctx = Except.error Failure.InternalInvariantViolation := by
  rw [construct_eq 1 1 _ _ _ (by decide)]
  exact ⟨_, rfl, by show ((Int.gcd 1 1 : Int)) = 1; decide,
    by show Int.tdiv (2 * 1 * 1 * s_stepsTheta) (Int.gcd 1 1 : Int) = 40; decide,
    drawPaths_one_lead M 1 _ _ _ (by decide) false ctx,
    drawPaths_one_lead M 1 _ _ _ (by decide) true ctx⟩

/-- C10 (failing input): for `leads = 1`, `bights = 1` and the radii 40 and 60 of a
valid parameter set, `draw` calls `save`, then stops at the first assertion of
`getAltitude` inside the unfiltered pass: it does not return and `restore` is
never called. -/
theorem draw_stops_with_one_lead {α : Type} [LinearOrderedField α] [FloorRing α]
    (M : CMath α) (lineWidth : α) (ctx : Canvas α) :
    ∃ m, construct 1 1 (40 : α) 60 lineWidth = Except.ok m
      ∧ drawPaths M m false (ctx ++ [Cmd.save])
          = Except.error Failure.InternalInvariantViolation
      ∧ draw M m ctx = Except.error Failure.InternalInvariantViolation := by
  rw [construct_eq 1 1 _ _ _ (by decide)]
  refine ⟨_, rfl, drawPaths_one_lead M 1 _ _ _ (by decide) false _, ?_⟩
  unfold draw
  rw [drawPaths_one_lead M 1 _ _ _ (by decide) false]

/-! ## Values of `getAltitude` over the sweep -/

theorem lower_bound_of_key (t : List (Int × Int)) (hs : t.Pairwise (fun a b => a.1 < b.1))
    (theta : Int) (j : Nat) (e : Int × Int) (he : t[j]? = some e) (hk : e.1 = theta) :
    lower_bound t theta = j := by
  have hj : j < t.length := (List.getElem?_eq_some.mp he).1
  have hle := lower_bound_le t theta
  by_contra hne
  rcases Nat.lt_or_gt_of_ne hne with hlt | hgt
  · obtain ⟨c, hc⟩ : ∃ c, t[lower_bound t theta]? = some c :=
      ⟨_, List.getElem?_eq_getElem (by omega)⟩
    have h1 := lower_bound_at t theta c hc
    have h2 := sorted_getElem?_lt t hs _ _ _ _ hlt hc he
    omega
  · have := lower_bound_before t theta j e hgt he
    omega

theorem key_le_prev (t : List (Int × Int)) (hs : t.Pairwise (fun a b => a.1 < b.1))
    (theta : Int) (e p : Int × Int) (he : e ∈ t) (hlt : e.1 < theta)
    (hp : t[lower_bound t theta - 1]? = some p) : e.1 ≤ p.1 := by
  obtain ⟨j, hj⟩ := List.mem_iff_getElem?.mp he
  have hjlen : j < t.length := (List.getElem?_eq_some.mp hj).1
  have hjlb : j < lower_bound t theta := by
    by_contra hge
    have hlb : lower_bound t theta < t.length := by omega
    obtain ⟨c, hc⟩ : ∃ c, t[lower_bound t theta]? = some c :=
      ⟨_, List.getElem?_eq_getElem hlb⟩
    have h1 := lower_bound_at t theta c hc
    rcases Nat.eq_or_lt_of_le (Nat.le_of_not_lt hge) with heq | hlt2
    · rw [heq, hj] at hc
      cases hc
      omega
    · have := sorted_getElem?_lt t hs _ _ _ _ hlt2 hc hj
      omega
  rcases Nat.eq_or_lt_of_le (Nat.le_sub_one_of_lt hjlb) with heq | hlt2
  · rw [heq, hp] at hj
    cases hj
    exact le_refl _
  · exact le_of_lt (sorted_getElem?_lt t hs _ _ _ _ hlt2 hj hp)

theorem next_le_key (t : List (Int × Int)) (hs : t.Pairwise (fun a b => a.1 < b.1))
    (theta : Int) (e n : Int × Int) (he : e ∈ t) (hge : theta ≤ e.1)
    (hn : t[lower_bound t theta]? = some n) : n.1 ≤ e.1 := by
  obtain ⟨j, hj⟩ := List.mem_iff_getElem?.mp he
  have hjlb : lower_bound t theta ≤ j := by
    by_contra hlt
    have := lower_bound_before t theta j e (by omega) hj
    omega
  rcases Nat.eq_or_lt_of_le hjlb with heq | hlt
  · rw [← heq, hn] at hj
    cases hj
    exact le_refl _
  · exact le_of_lt (sorted_getElem?_lt t hs _ _ _ _ hlt hn hj)

theorem recordedAltitudes_value_cases (leads bights : Int) (j : Nat) (e : Int × Int)
    (h : (recordedAltitudes leads bights)[j]? = some e) : e.2 = -1 ∨ e.2 = 1 := by
  have hv := recordedAltitudes_value leads bights j e h
  split at hv
  · exact Or.inl hv
  · exact Or.inr hv

theorem recordedAltitudes_adjacent (leads bights : Int) (j : Nat) (p n : Int × Int)
    (hp : (recordedAltitudes leads bights)[j]? = some p)
    (hn : (recordedAltitudes leads bights)[j + 1]? = some n) : p.2 + n.2 = 0 := by
  have h1 := recordedAltitudes_value leads bights j p hp
  have h2 := recordedAltitudes_value leads bights (j + 1) n hn
  rcases Nat.mod_two_eq_zero_or_one j with h | h
  · have h' : (j + 1) % 2 ≠ 0 := by omega
    rw [if_pos h] at h1
    rw [if_neg h'] at h2
    omega
  · have h' : (j + 1) % 2 = 0 := by omega
    have h'' : j % 2 ≠ 0 := by omega
    rw [if_neg h''] at h1
    rw [if_pos h'] at h2
    omega

theorem recordedAltitudes_key_form (leads bights : Int) (e : Int × Int)
    (he : e ∈ recordedAltitudes leads bights) :
    ∃ i, -1 ≤ i ∧ i ≤ 2 * leads * bights + 1 ∧ ¬ leads ∣ i ∧ e.1 = 20 * i :=
  (mem_recordedAltitudes_keys leads bights e.1).mp (List.mem_map.mpr ⟨e, he, rfl⟩)

theorem interpolation_bounds {α : Type} [LinearOrderedField α] (a0 a1 u d : Int)
    (h0 : a0 = -1 ∨ a0 = 1) (h1 : a1 = -1 ∨ a1 = 1) (hu : 0 < u) (hud : u ≤ d) :
    (-1 : α) ≤ (a0 : α) + (((a1 - a0) * u : Int) : α) / ((d : Int) : α)
      ∧ (a0 : α) + (((a1 - a0) * u : Int) : α) / ((d : Int) : α) ≤ 1 := by
  have hdpos : (0 : α) < (d : α) := by
    have : 0 < d := by omega
    exact_mod_cast this
  have hu0 : (0 : α) ≤ (u : α) := by
    have : 0 ≤ u := by omega
    exact_mod_cast this
  have hudα : (u : α) ≤ (d : α) := by exact_mod_cast hud
  have hfrac0 : (0 : α) ≤ (u : α) / (d : α) := div_nonneg hu0 (le_of_lt hdpos)
  have hfrac1 : (u : α) / (d : α) ≤ 1 := (div_le_one hdpos).mpr hudα
  rcases h0 with h0 | h0 <;> rcases h1 with h1 | h1 <;> subst h0 <;> subst h1
  · norm_num
  · have e : (((- 1 : Int) : α)) + ((((1 - -1) * u : Int)) : α) / ((d : Int) : α)
        = -1 + 2 * ((u : α) / (d : α)) := by
      push_cast
      ring
    rw [e]
    constructor <;> linarith
  · have e : (((1 : Int) : α)) + ((((-1 - 1) * u : Int)) : α) / ((d : Int) : α)
        = 1 - 2 * ((u : α) / (d : α)) := by
      push_cast
      ring
    rw [e]
    constructor <;> linarith
  · norm_num

/-- C16: with at least two leads, `bights ≥ 1` and the last key
`20 * (2 * leads * bights + 1)` inside the `int` range (so that no `int` expression
of the constructor overflows), the keys of the table and `m_maxThetaOnPath` are `int`
values and for every `theta` of the sweep `0 .. m_maxThetaOnPath` neither assertion of
`getAltitude` fires, the denominator of the interpolation is positive, the altitude
lies in `[-1, 1]`, at a key of the table it is the recorded value (`+1` or `-1`), and
the brightness `0.5 + altitude / 2` lies in `[0, 1]`. -/
theorem getAltitude_within_unit_interval {α : Type} [LinearOrderedField α]
    (leads bights : Int) (innerRadius outerRadius lineWidth : α)
    (hl : 2 ≤ leads) (hb : 1 ≤ bights)
    (hr : 20 * (2 * leads * bights + 1) ≤ 2 ^ 31 - 1) :
    ∃ m, construct leads bights innerRadius outerRadius lineWidth = Except.ok m
      ∧ (∀ e ∈ m.m_knownAltitudes, -(2 ^ 31) ≤ e.1 ∧ e.1 ≤ 2 ^ 31 - 1)
      ∧ m.m_maxThetaOnPath ≤ 2 ^ 31 - 1
      ∧ ∀ theta : Int, 0 ≤ theta → theta ≤ m.m_maxThetaOnPath →
        ∃ (z : α) (prevE nextE : Int × Int),
          getAltitude m theta = Except.ok z
            ∧ lower_bound m.m_knownAltitudes theta ≠ 0
            ∧ lower_bound m.m_knownAltitudes theta ≠ m.m_knownAltitudes.length
            ∧ m.m_knownAltitudes[lower_bound m.m_knownAltitudes theta - 1]? = some prevE
            ∧ m.m_knownAltitudes[lower_bound m.m_knownAltitudes theta]? = some nextE
            ∧ (0 : α) < ((nextE.1 - prevE.1 : Int) : α)
            ∧ -1 ≤ z ∧ z ≤ 1
            ∧ (∀ a : Int, (theta, a) ∈ m.m_knownAltitudes → z = (a : α) ∧ (a = 1 ∨ a = -1))
            ∧ 0 ≤ 1 / 2 + z / 2 ∧ 1 / 2 + z / 2 ≤ 1 := by
  have hmaxb := (constructed_maxTheta_bounds leads bights innerRadius outerRadius lineWidth
    (by omega) hb).2
  rw [construct_eq leads bights _ _ _ (by omega)]
  refine ⟨_, rfl, recordedAltitudes_keys_fit leads bights (by omega) hb hr, by omega, ?_⟩
  intro theta h0 h1
  obtain ⟨p, n, hlb0, hp, hn, hz⟩ :=
    getAltitude_defined leads bights innerRadius outerRadius lineWidth hl hb theta h0 h1
  have hs := recordedAltitudes_sorted leads bights
  have hlen : lower_bound (recordedAltitudes leads bights) theta
      < (recordedAltitudes leads bights).length := (List.getElem?_eq_some.mp hn).1
  have hplt : p.1 < theta := lower_bound_before _ theta _ p (by omega) hp
  have hnge : theta ≤ n.1 := lower_bound_at _ theta n hn
  have hpv := recordedAltitudes_value_cases leads bights _ p hp
  have hnv := recordedAltitudes_value_cases leads bights _ n hn
  have hb' := interpolation_bounds (α := α) p.2 n.2 (theta - p.1) (n.1 - p.1) hpv hnv
    (by omega) (by omega)
  have hden : (0 : α) < ((n.1 - p.1 : Int) : α) := by
    have : 0 < n.1 - p.1 := by omega
    exact_mod_cast this
  refine ⟨_, p, n, hz, hlb0, Nat.ne_of_lt hlen, hp, hn, hden, hb'.1, hb'.2, ?_, ?_, ?_⟩
  · intro a ha
    obtain ⟨j, hj⟩ := List.mem_iff_getElem?.mp ha
    have hlbj := lower_bound_of_key _ hs theta j (theta, a) hj rfl
    have hn' : (recordedAltitudes leads bights)[lower_bound (recordedAltitudes leads bights)
        theta]? = some (theta, a) := by rw [hlbj]; exact hj
    have hna : n = (theta, a) := by
      have hn2 : (recordedAltitudes leads bights)[lower_bound (recordedAltitudes leads bights)
          theta]? = some n := hn
      rw [hn'] at hn2
      exact (Option.some.inj hn2).symm
    constructor
    · subst hna
      have hd1 : ((theta - p.1 : Int) : α) ≠ 0 := by
        have : theta - p.1 ≠ 0 := by omega
        exact_mod_cast this
      show (p.2 : α) + (((a - p.2) * (theta - p.1) : Int) : α) / ((theta - p.1 : Int) : α)
        = (a : α)
      rw [Int.cast_mul, mul_div_assoc, div_self hd1]
      push_cast
      ring
    · have := recordedAltitudes_value_cases leads bights j (theta, a) hj
      simp only at this
      omega
  · linarith [hb'.1]
  · linarith [hb'.2]

/-- C16 (witness): `leads = 3`, `bights = 5` (last key `620`), at the breakpoint key
`theta = 20`, where the recorded value is `+1`. -/
theorem getAltitude_within_unit_interval_witness :
    (2 : Int) ≤ 3 ∧ (1 : Int) ≤ 5 ∧ (20 * (2 * 3 * 5 + 1) : Int) ≤ 2 ^ 31 - 1
      ∧ ∃ m, construct 3 5 (40 : ℚ) 60 2 = Except.ok m
          ∧ (20 : Int) ≤ m.m_maxThetaOnPath
          ∧ ((20 : Int), (1 : Int)) ∈ m.m_knownAltitudes
          ∧ getAltitude m 20 = Except.ok (1 : ℚ) :=
  ⟨by decide, by decide, by decide,
    let ⟨m, hm, _, _, hall⟩ :=
      getAltitude_within_unit_interval 3 5 (40 : ℚ) 60 2 (by decide) (by decide) (by decide)
    have hmeq : m = constructed 3 5 (40 : ℚ) 60 2 := by
      rw [construct_eq 3 5 _ _ _ (by decide)] at hm
      exact (Except.ok.inj hm).symm
    have hmax : (20 : Int) ≤ m.m_maxThetaOnPath := by
      rw [hmeq]
      decide
    have hmem : ((20 : Int), (1 : Int)) ∈ m.m_knownAltitudes := by
      rw [hmeq]
      decide
    let ⟨z, _, _, hz, _, _, _, _, _, _, _, hkey, _, _⟩ := hall 20 (by decide) hmax
    ⟨m, hm, hmax, hmem, by rw [hz, (hkey 1 hmem).1]; norm_num⟩⟩

/-! ## The altitude at the lead boundaries -/

theorem not_dvd_succ_multiple (leads k : Int) (hl : 2 ≤ leads) : ¬ leads ∣ leads * k + 1 := by
  intro hd
  have h1 : leads ∣ 1 := (Int.dvd_add_right (Dvd.intro k rfl)).mp hd
  have := Int.le_of_dvd (by decide) h1
  omega

theorem not_dvd_pred_multiple (leads k : Int) (hl : 2 ≤ leads) : ¬ leads ∣ leads * k - 1 := by
  intro hd
  have h2 : leads ∣ leads * k - (leads * k - 1) := Int.dvd_sub (Dvd.intro k rfl) hd
  have h1 : leads ∣ 1 := by
    have e : leads * k - (leads * k - 1) = 1 := by ring
    rw [e] at h2
    exact h2
  have := Int.le_of_dvd (by decide) h1
  omega

theorem getAltitude_at_boundary {α : Type} [LinearOrderedField α] (leads bights : Int)
    (innerRadius outerRadius lineWidth : α) (hl : 2 ≤ leads) (hb : 1 ≤ bights) (k : Int)
    (h0 : 0 ≤ leads * k) (h1 : leads * k ≤ 2 * leads * bights) :
    getAltitude (constructed leads bights innerRadius outerRadius lineWidth) (20 * (leads * k))
      = Except.ok 0 := by
  have hs := recordedAltitudes_sorted leads bights
  obtain ⟨rest, hrest⟩ := recordedAltitudes_first leads bights hl hb
  obtain ⟨eLast, heLast, hkLast⟩ := recordedAltitudes_last leads bights hl hb
  obtain ⟨p, n, hlb0, hp, hn, hz⟩ := getAltitude_defined_of_bounds
    (constructed leads bights innerRadius outerRadius lineWidth) (20 * (leads * k)) (-20, -1)
    eLast rest hrest (by show (-20 : Int) < 20 * (leads * k); omega) heLast (by omega)
  have hp' : (recordedAltitudes leads bights)[lower_bound (recordedAltitudes leads bights)
      (20 * (leads * k)) - 1]? = some p := hp
  have hn' : (recordedAltitudes leads bights)[lower_bound (recordedAltitudes leads bights)
      (20 * (leads * k))]? = some n := hn
  have hlb0' : lower_bound (recordedAltitudes leads bights) (20 * (leads * k)) ≠ 0 := hlb0
  have hlen : lower_bound (recordedAltitudes leads bights) (20 * (leads * k))
      < (recordedAltitudes leads bights).length := (List.getElem?_eq_some.mp hn').1
  have hplt : p.1 < 20 * (leads * k) := lower_bound_before _ _ _ p (by omega) hp'
  have hnge : 20 * (leads * k) ≤ n.1 := lower_bound_at _ _ n hn'
  -- the recorded neighbours of the skipped index
  have hkm : 20 * (leads * k - 1) ∈ (recordedAltitudes leads bights).map Prod.fst :=
    (mem_recordedAltitudes_keys leads bights _).mpr
      ⟨leads * k - 1, by omega, by omega, not_dvd_pred_multiple leads k hl, rfl⟩
  have hkp : 20 * (leads * k + 1) ∈ (recordedAltitudes leads bights).map Prod.fst :=
    (mem_recordedAltitudes_keys leads bights _).mpr
      ⟨leads * k + 1, by omega, by omega, not_dvd_succ_multiple leads k hl, rfl⟩
  obtain ⟨em, hem, hemk⟩ := List.mem_map.mp hkm
  obtain ⟨ep, hep, hepk⟩ := List.mem_map.mp hkp
  have h1' : em.1 ≤ p.1 := key_le_prev _ hs _ em p hem (by omega) hp'
  have h2' : n.1 ≤ ep.1 := next_le_key _ hs _ ep n hep (by omega) hn'
  obtain ⟨ip, _, _, hipd, hipk⟩ := recordedAltitudes_key_form leads bights p
    (List.mem_iff_getElem?.mpr ⟨_, hp'⟩)
  obtain ⟨inx, _, _, hind, hink⟩ := recordedAltitudes_key_form leads bights n
    (List.mem_iff_getElem?.mpr ⟨_, hn'⟩)
  have hipv : ip = leads * k - 1 := by omega
  have hinv : inx = leads * k + 1 := by
    have hne : inx ≠ leads * k := by
      intro h
      exact hind (h ▸ Dvd.intro k rfl)
    omega
  have hpk : p.1 = 20 * (leads * k) - 20 := by omega
  have hnk : n.1 = 20 * (leads * k) + 20 := by omega
  -- consecutive entries have opposite values
  have hadj : p.2 + n.2 = 0 := by
    have hidx : lower_bound (recordedAltitudes leads bights) (20 * (leads * k)) - 1 + 1
        = lower_bound (recordedAltitudes leads bights) (20 * (leads * k)) := by omega
    exact recordedAltitudes_adjacent leads bights _ p n hp' (by rw [hidx]; exact hn')
  have hpv := recordedAltitudes_value_cases leads bights _ p hp'
  rw [hz]
  congr 1
  have hu : 20 * (leads * k) - p.1 = 20 := by omega
  have hd : n.1 - p.1 = 40 := by omega
  have hn2 : n.2 = -p.2 := by omega
  rw [hu, hd, hn2]
  rcases hpv with h | h <;> rw [h] <;> norm_num

theorem constructed_maxTheta_multiple {α : Type} [LinearOrderedField α] (leads bights : Int)
    (innerRadius outerRadius lineWidth : α) (hl : 1 ≤ leads) (hb : 1 ≤ bights) :
    ∃ k : Int, (constructed leads bights innerRadius outerRadius lineWidth).m_maxThetaOnPath
        = 20 * (leads * k) ∧ 0 ≤ leads * k ∧ leads * k ≤ 2 * leads * bights := by
  have hgpos : (0 : Int) < (Int.gcd bights leads : Int) := by
    have : 0 < Int.gcd bights leads := Int.gcd_pos_of_ne_zero_right _ (by omega)
    exact_mod_cast this
  obtain ⟨b', hb'⟩ : ((Int.gcd bights leads : Int)) ∣ bights := Int.gcd_dvd_left
  have hnum : (0 : Int) ≤ 2 * leads * bights * 20 := by positivity
  have hq : Int.tdiv (2 * leads * bights * 20) (Int.gcd bights leads : Int)
      = 2 * leads * bights * 20 / (Int.gcd bights leads : Int) :=
    Int.tdiv_eq_ediv hnum (le_of_lt hgpos)
  have hval : 2 * leads * bights * 20 / (Int.gcd bights leads : Int) = 20 * (leads * (2 * b')) := by
    have e : 2 * leads * bights * 20
        = 20 * (leads * (2 * b')) * (Int.gcd bights leads : Int) := by
      rw [show 2 * leads * bights * 20 = 2 * leads * 20 * bights by ring]
      nth_rewrite 1 [hb']
      ring
    rw [e]
    exact Int.mul_ediv_cancel _ (ne_of_gt hgpos)
  have hmax := constructed_maxTheta_bounds leads bights innerRadius outerRadius lineWidth hl hb
  have hm : (constructed leads bights innerRadius outerRadius lineWidth).m_maxThetaOnPath
      = 20 * (leads * (2 * b')) := by
    show Int.tdiv (2 * leads * bights * s_stepsTheta) (Int.gcd bights leads : Int) = _
    simp only [s_stepsTheta]
    rw [hq, hval]
  refine ⟨2 * b', hm, ?_, ?_⟩
  · have := hmax.1
    rw [hm] at this
    omega
  · have := hmax.2
    rw [hm] at this
    omega

theorem drawPathStep_filtered_of_zero {α : Type} [LinearOrderedField α] [FloorRing α]
    (M : CMath α) (m : TurksHead α) (ctx : Canvas α) (theta : Int)
    (h : getAltitude m theta = Except.ok 0) :
    drawPathStep M m true ctx theta = Except.ok ctx := by
  unfold drawPathStep
  rw [h]
  simp

/-- C17: with at least two leads, `bights ≥ 1` and the last key
`20 * (2 * leads * bights + 1)` inside the `int` range (so that no `int` expression
of the constructor overflows), the keys of the table and `m_maxThetaOnPath` are `int`
values and the altitude is exactly `0` at every step `theta = 20 * leads * k` of the
sweep `0 .. m_maxThetaOnPath`, in particular at `0` and at `m_maxThetaOnPath`, and the
filtered pass draws nothing for these two steps. -/
theorem getAltitude_zero_at_lead_boundaries {α : Type} [LinearOrderedField α] [FloorRing α]
    (leads bights : Int) (innerRadius outerRadius lineWidth : α)
    (hl : 2 ≤ leads) (hb : 1 ≤ bights)
    (hr : 20 * (2 * leads * bights + 1) ≤ 2 ^ 31 - 1) :
    ∃ m, construct leads bights innerRadius outerRadius lineWidth = Except.ok m
      ∧ (∀ e ∈ m.m_knownAltitudes, -(2 ^ 31) ≤ e.1 ∧ e.1 ≤ 2 ^ 31 - 1)
      ∧ m.m_maxThetaOnPath ≤ 2 ^ 31 - 1
      ∧ (∀ k : Int, 0 ≤ 20 * leads * k → 20 * leads * k ≤ m.m_maxThetaOnPath →
          getAltitude m (20 * leads * k) = Except.ok (0 : α))
      ∧ getAltitude m 0 = Except.ok (0 : α)
      ∧ getAltitude m m.m_maxThetaOnPath = Except.ok (0 : α)
      ∧ (∀ (M : CMath α) (ctx : Canvas α),
          drawPathStep M m true ctx 0 = Except.ok ctx
            ∧ drawPathStep M m true ctx m.m_maxThetaOnPath = Except.ok ctx) := by
  rw [construct_eq leads bights _ _ _ (by omega)]
  have hmax := constructed_maxTheta_bounds leads bights innerRadius outerRadius lineWidth
    (by omega) hb
  have hzero : getAltitude (constructed leads bights innerRadius outerRadius lineWidth) 0
      = Except.ok (0 : α) := by
    have h := getAltitude_at_boundary leads bights innerRadius outerRadius lineWidth hl hb 0
      (by simp) (by rw [Int.mul_zero]; positivity)
    simpa using h
  have hlast : getAltitude (constructed leads bights innerRadius outerRadius lineWidth)
      (constructed leads bights innerRadius outerRadius lineWidth).m_maxThetaOnPath
        = Except.ok (0 : α) := by
    obtain ⟨k, hk, hk0, hk1⟩ := constructed_maxTheta_multiple leads bights innerRadius
      outerRadius lineWidth (by omega) hb
    rw [hk]
    exact getAltitude_at_boundary leads bights innerRadius outerRadius lineWidth hl hb k hk0 hk1
  refine ⟨_, rfl, recordedAltitudes_keys_fit leads bights (by omega) hb hr,
    by have := hmax.2; omega, ?_, hzero, hlast, ?_⟩
  · intro k h0 h1
    have e : 20 * leads * k = 20 * (leads * k) := by ring
    rw [e] at h0 h1 ⊢
    exact getAltitude_at_boundary leads bights innerRadius outerRadius lineWidth hl hb k
      (by omega) (by omega)
  · intro M ctx
    exact ⟨drawPathStep_filtered_of_zero M _ ctx 0 hzero,
      drawPathStep_filtered_of_zero M _ ctx _ hlast⟩

/-- C17 (witness): `leads = 3`, `bights = 5` (last key `620`): the altitude is `0` at
`theta = 60` (`k = 1`), at `0` and at `m_maxThetaOnPath = 600`. -/
theorem getAltitude_zero_at_lead_boundaries_witness :
    (2 : Int) ≤ 3 ∧ (1 : Int) ≤ 5 ∧ (20 * (2 * 3 * 5 + 1) : Int) ≤ 2 ^ 31 - 1
      ∧ ∃ m, construct 3 5 (40 : ℚ) 60 2 = Except.ok m
          ∧ m.m_maxThetaOnPath = 600
          ∧ getAltitude m 60 = Except.ok (0 : ℚ)
          ∧ getAltitude m 0 = Except.ok (0 : ℚ)
          ∧ getAltitude m 600 = Except.ok (0 : ℚ) :=
  ⟨by decide, by decide, by decide,
    let ⟨m, hm, _, _, hall, h0, hlast, _⟩ :=
      getAltitude_zero_at_lead_boundaries 3 5 (40 : ℚ) 60 2 (by decide) (by decide)
        (by decide)
    have hmeq : m = constructed 3 5 (40 : ℚ) 60 2 := by
      rw [construct_eq 3 5 _ _ _ (by decide)] at hm
      exact (Except.ok.inj hm).symm
    have hmax : m.m_maxThetaOnPath = 600 := by
      rw [hmeq]
      decide
    ⟨m, hm, hmax, hall 1 (by decide) (by rw [hmax]; decide), h0, by rw [← hmax]; exact hlast⟩⟩

/-! ## The rotations of a pass -/

theorem flatMap_const_eq_replicate {β : Type} (xs : List Int) (c : List β) :
    xs.flatMap (fun _ => c) = (List.replicate xs.length c).flatten := by
  induction xs with
  | nil => rfl
  | cons x xs ih =>
    rw [List.flatMap_cons, ih, List.length_cons, List.replicate_succ, List.flatten_cons]

theorem passCalls_eq_replicate {α : Type} [LinearOrderedField α] [FloorRing α] (M : CMath α)
    (m : TurksHead α) (onlyPositiveZ : Bool) :
    passCalls M m onlyPositiveZ
      = (List.replicate m.m_paths.toNat
          (pathCalls M m onlyPositiveZ ++ [Cmd.rotate (2 * M.pi / (m.m_paths : α))])).flatten := by
  unfold passCalls
  rw [flatMap_const_eq_replicate, intRange_length]
  congr 2
  omega

theorem countP_isRotate_setSourceHsv {α : Type} [LinearOrderedField α] [FloorRing α]
    (h s v : α) : (setSourceHsv h s v []).countP isRotate = 0 := by
  unfold setSourceHsv
  simp only
  split_ifs <;> simp [isRotate]

theorem countP_isRotate_drawSegment {α : Type} [LinearOrderedField α] (M : CMath α)
    (m : TurksHead α) (theta : Int) (ctx : Canvas α) :
    (drawSegment M m theta ctx).countP isRotate = ctx.countP isRotate := by
  unfold drawSegment
  simp [List.countP_append, isRotate]

theorem countP_isRotate_segmentCalls {α : Type} [LinearOrderedField α] [FloorRing α]
    (M : CMath α) (m : TurksHead α) (onlyPositiveZ : Bool) (theta : Int) :
    (segmentCalls M m onlyPositiveZ theta).countP isRotate = 0 := by
  unfold segmentCalls
  split
  · rw [List.countP_append, countP_isRotate_drawSegment, countP_isRotate_setSourceHsv]
    simp [isRotate]
  · simp

theorem countP_isRotate_pathCalls {α : Type} [LinearOrderedField α] [FloorRing α]
    (M : CMath α) (m : TurksHead α) (onlyPositiveZ : Bool) :
    (pathCalls M m onlyPositiveZ).countP isRotate = 0 := by
  unfold pathCalls
  rw [countP_flatMap_sum, sum_map_const_one _ _ 0
    (fun theta _ => countP_isRotate_segmentCalls M m onlyPositiveZ theta)]
  simp

theorem countP_isRotate_passCalls {α : Type} [LinearOrderedField α] [FloorRing α]
    (M : CMath α) (m : TurksHead α) (onlyPositiveZ : Bool) :
    (passCalls M m onlyPositiveZ).countP isRotate = m.m_paths.toNat := by
  unfold passCalls
  rw [countP_flatMap_sum, sum_map_const_one _ _ 1, intRange_length]
  · have : (m.m_paths - 1 + 1 - 0).toNat = m.m_paths.toNat := by congr 1; omega
    rw [this, Nat.mul_one]
  · intro _ _
    rw [List.countP_append, countP_isRotate_pathCalls]
    simp [isRotate]

theorem totalRotation_append {α : Type} [LinearOrderedField α] (l1 l2 : List (Cmd α)) :
    totalRotation (l1 ++ l2) = totalRotation l1 + totalRotation l2 := by
  unfold totalRotation
  rw [List.map_append, List.sum_append]

theorem totalRotation_of_no_rotate {α : Type} [LinearOrderedField α] (l : List (Cmd α))
    (h : l.countP isRotate = 0) : totalRotation l = 0 := by
  induction l with
  | nil => rfl
  | cons c cs ih =>
    rw [List.countP_cons] at h
    have hc : isRotate c = false := by
      cases hb : isRotate c with
      | false => rfl
      | true => rw [hb] at h; simp at h
    have hcs : cs.countP isRotate = 0 := by omega
    have hr : rotationOf c = 0 := by
      cases c <;> first | rfl | (simp [isRotate] at hc)
    unfold totalRotation at ih ⊢
    rw [List.map_cons, List.sum_cons, hr, ih hcs, add_zero]

theorem totalRotation_replicate {α : Type} [LinearOrderedField α] (n : Nat)
    (l : List (Cmd α)) (a : α) (h : l.countP isRotate = 0) :
    totalRotation (List.replicate n (l ++ [Cmd.rotate a])).flatten = (n : α) * a := by
  induction n with
  | zero => simp [totalRotation]
  | succ n ih =>
    rw [List.replicate_succ, List.flatten_cons, totalRotation_append, totalRotation_append,
      totalRotation_of_no_rotate l h, ih]
    simp only [totalRotation, List.map_cons, List.map_nil, List.sum_cons, List.sum_nil,
      rotationOf]
    push_cast
    ring

theorem rotate_mem_passCalls {α : Type} [LinearOrderedField α] [FloorRing α] (M : CMath α)
    (m : TurksHead α) (onlyPositiveZ : Bool) (c : Cmd α)
    (hc : c ∈ passCalls M m onlyPositiveZ) (hr : isRotate c = true) :
    c = Cmd.rotate (2 * M.pi / (m.m_paths : α)) := by
  unfold passCalls at hc
  rw [List.mem_flatMap] at hc
  obtain ⟨_, _, hmem⟩ := hc
  rcases List.mem_append.mp hmem with h | h
  · exfalso
    have hz := countP_isRotate_pathCalls M m onlyPositiveZ
    rw [List.countP_eq_zero] at hz
    exact hz c h hr
  · simpa using h

/-- In the closed form `constructed` with at least two leads each pass is `m_paths`
times the calls of one path
followed by one `rotate( 2 * M_PI / m_paths )`; the calls of a path contain no
`rotate`, and the rotations of one pass add up to `2 * M_PI`. -/
theorem drawPaths_rotations {α : Type} [LinearOrderedField α] [FloorRing α] (M : CMath α)
    (leads bights : Int) (innerRadius outerRadius lineWidth : α)
    (hl : 2 ≤ leads) (hb : 1 ≤ bights) (onlyPositiveZ : Bool) (ctx : Canvas α) :
    drawPaths M (constructed leads bights innerRadius outerRadius lineWidth) onlyPositiveZ ctx
        = Except.ok (ctx ++ (List.replicate
            (constructed leads bights innerRadius outerRadius lineWidth).m_paths.toNat
            (pathCalls M (constructed leads bights innerRadius outerRadius lineWidth)
                onlyPositiveZ
              ++ [Cmd.rotate (2 * M.pi
                  / ((constructed leads bights innerRadius outerRadius lineWidth).m_paths : α))])
            ).flatten)
      ∧ (pathCalls M (constructed leads bights innerRadius outerRadius lineWidth)
            onlyPositiveZ).countP isRotate = 0
      ∧ (passCalls M (constructed leads bights innerRadius outerRadius lineWidth)
            onlyPositiveZ).countP isRotate
          = (constructed leads bights innerRadius outerRadius lineWidth).m_paths.toNat
      ∧ totalRotation (passCalls M (constructed leads bights innerRadius outerRadius lineWidth)
            onlyPositiveZ) = 2 * M.pi := by
  have hgpos : (0 : Int)
      < (constructed leads bights innerRadius outerRadius lineWidth).m_paths := by
    show (0 : Int) < (Int.gcd bights leads : Int)
    have : 0 < Int.gcd bights leads := Int.gcd_pos_of_ne_zero_right _ (by omega)
    exact_mod_cast this
  refine ⟨?_, countP_isRotate_pathCalls M _ onlyPositiveZ,
    countP_isRotate_passCalls M _ onlyPositiveZ, ?_⟩
  · rw [drawPaths_ok M leads bights _ _ _ hl hb, passCalls_eq_replicate]
  · rw [passCalls_eq_replicate, totalRotation_replicate _ _ _
      (countP_isRotate_pathCalls M _ onlyPositiveZ)]
    have hcast : (((constructed leads bights innerRadius outerRadius lineWidth).m_paths.toNat
        : Nat) : α) = ((constructed leads bights innerRadius outerRadius lineWidth).m_paths : α) := by
      have h : (((constructed leads bights innerRadius outerRadius lineWidth).m_paths.toNat
          : Nat) : Int) = (constructed leads bights innerRadius outerRadius lineWidth).m_paths :=
        Int.toNat_of_nonneg (le_of_lt hgpos)
      exact_mod_cast congrArg (fun z : Int => (z : α)) h
    have hne : ((constructed leads bights innerRadius outerRadius lineWidth).m_paths : α) ≠ 0 := by
      exact_mod_cast (ne_of_gt hgpos)
    rw [hcast]
    field_simp

/-- For `leads = 3`, `bights = 5` there is one path: a pass is the calls of that path
followed by one `rotate( 2 * M_PI / 1 )`. -/
theorem drawPaths_3_5_rotations {α : Type} [LinearOrderedField α] [FloorRing α] (M : CMath α)
    (innerRadius outerRadius lineWidth : α) (onlyPositiveZ : Bool) (ctx : Canvas α) :
    drawPaths M (constructed 3 5 innerRadius outerRadius lineWidth) onlyPositiveZ ctx
      = Except.ok (ctx
          ++ (pathCalls M (constructed 3 5 innerRadius outerRadius lineWidth) onlyPositiveZ
            ++ [Cmd.rotate (2 * M.pi / ((1 : Int) : α))])) := by
  rw [(drawPaths_rotations M 3 5 innerRadius outerRadius lineWidth (by decide) (by decide)
    onlyPositiveZ ctx).1, (constructed_3_5 innerRadius outerRadius lineWidth).1]
  simp

/-- C11 (failing input): with `leads = 1` (and any `bights = b + 1 ≥ 1`) there is one
path, so each pass should issue one `rotate`; both passes and `draw` stop at the
first assertion of `getAltitude` before `drawPaths` reaches its `rotate`. -/
theorem drawPaths_one_lead_never_rotates {α : Type} [LinearOrderedField α] [FloorRing α]
    (M : CMath α) (b : Nat) (innerRadius outerRadius lineWidth : α) :
    ∃ m, construct 1 ((b : Int) + 1) innerRadius outerRadius lineWidth = Except.ok m
      ∧ m.m_paths = 1
      ∧ (∀ (onlyPositiveZ : Bool) (ctx : Canvas α),
          drawPathsStep M m onlyPositiveZ ctx 0
              = Except.error Failure.InternalInvariantViolation
            ∧ drawPaths M m onlyPositiveZ ctx
              = Except.error Failure.InternalInvariantViolation)
      ∧ (∀ ctx : Canvas α, draw M m ctx = Except.error Failure.InternalInvariantViolation) := by
  have hb : (1 : Int) ≤ (b : Int) + 1 := by omega
  rw [construct_eq 1 _ _ _ _ (by decide)]
  refine ⟨_, rfl, ?_, ?_, ?_⟩
  · show ((Int.gcd ((b : Int) + 1) 1 : Int)) = 1
    simp
  · intro onlyPositiveZ ctx
    constructor
    · unfold drawPathsStep
      rw [drawPath_one_lead M _ innerRadius outerRadius lineWidth hb]
    · exact drawPaths_one_lead M _ _ _ _ hb onlyPositiveZ ctx
  · intro ctx
    unfold draw
    rw [drawPaths_one_lead M _ _ _ _ hb false]

/-! ## Geometry over the reals

In this part `double` is `ℝ` and `<cmath>` is
`CMath.mk Real.cos Real.sin Real.sqrt Real.pi`. -/

theorem constructed_radius_bounds (leads bights : Int) (innerRadius outerRadius lineWidth : ℝ)
    (theta : Int) :
    |getRadius (CMath.mk Real.cos Real.sin Real.sqrt Real.pi)
          (constructed leads bights innerRadius outerRadius lineWidth) theta
        - (innerRadius + outerRadius) / 2|
      ≤ |(outerRadius - innerRadius - lineWidth) / 2| := by
  unfold getRadius
  simp only [constructed, add_sub_cancel_left]
  rw [abs_mul]
  have hc := Real.abs_cos_le_one
    ((bights : ℝ) * angleFromTheta (CMath.mk Real.cos Real.sin Real.sqrt Real.pi)
      (constructed leads bights innerRadius outerRadius lineWidth) theta / (leads : ℝ))
  simp only [constructed] at hc
  calc |(outerRadius - innerRadius - lineWidth) / 2| * _
      ≤ |(outerRadius - innerRadius - lineWidth) / 2| * 1 :=
        mul_le_mul_of_nonneg_left hc (abs_nonneg _)
    _ = |(outerRadius - innerRadius - lineWidth) / 2| := mul_one _

/-- C12 (counterexample): with `leads = 3`, `bights = 5`, radii 40 and 60 and
`lineWidth = 30` the amplitude is `(60 - 40 - 30) / 2 = -5`, so the interval
`[50 - (-5), 50 + (-5)] = [55, 45]` is empty, while `getRadius( 0 ) = 45`. -/
theorem getRadius_outside_interval_for_wide_line :
    ∃ m, construct 3 5 (40 : ℝ) 60 30 = Except.ok m
      ∧ (40 : ℝ) < 60
      ∧ m.m_radius = 50 ∧ m.m_deltaRadius = -5
      ∧ getRadius (CMath.mk Real.cos Real.sin Real.sqrt Real.pi) m 0 = 45
      ∧ ¬ (m.m_radius - m.m_deltaRadius
            ≤ getRadius (CMath.mk Real.cos Real.sin Real.sqrt Real.pi) m 0
          ∧ getRadius (CMath.mk Real.cos Real.sin Real.sqrt Real.pi) m 0
            ≤ m.m_radius + m.m_deltaRadius) := by
  rw [construct_eq 3 5 _ _ _ (by decide)]
  have hr : getRadius (CMath.mk Real.cos Real.sin Real.sqrt Real.pi)
      (constructed 3 5 (40 : ℝ) 60 30) 0 = 45 := by
    unfold getRadius angleFromTheta
    simp only [constructed]
    norm_num
  have hc : (constructed 3 5 (40 : ℝ) 60 30).m_radius = 50 := by
    simp only [constructed]
    norm_num
  have hd : (constructed 3 5 (40 : ℝ) 60 30).m_deltaRadius = -5 := by
    simp only [constructed]
    norm_num
  refine ⟨_, rfl, by norm_num, hc, hd, hr, ?_⟩
  rw [hr, hc, hd]
  norm_num

/-- C12 (amended): for `leads ≥ 1`, `bights ≥ 1` and every integer `theta`,
`getRadius( theta )` is `centerRadius + radiusAmplitude * cos( bights * angle / leads )`
with `centerRadius = (inner + outer) / 2`, `radiusAmplitude = (outer - inner - lineWidth) / 2`;
it lies within `|radiusAmplitude|` of `centerRadius`, and when
`lineWidth ≤ outerRadius - innerRadius` it lies in
`[centerRadius - radiusAmplitude, centerRadius + radiusAmplitude]`. -/
theorem getRadius_within_amplitude (leads bights : Int)
    (innerRadius outerRadius lineWidth : ℝ) (theta : Int)
    (hl : 1 ≤ leads) (_hb : 1 ≤ bights) :
    ∃ m, construct leads bights innerRadius outerRadius lineWidth = Except.ok m
      ∧ m.m_radius = (innerRadius + outerRadius) / 2
      ∧ m.m_deltaRadius = (outerRadius - innerRadius - lineWidth) / 2
      ∧ getRadius (CMath.mk Real.cos Real.sin Real.sqrt Real.pi) m theta
          = m.m_radius + m.m_deltaRadius
              * Real.cos ((bights : ℝ) * (Real.pi * (theta : ℝ) / (bights : ℝ) / 20)
                  / (leads : ℝ))
      ∧ |getRadius (CMath.mk Real.cos Real.sin Real.sqrt Real.pi) m theta - m.m_radius|
          ≤ |m.m_deltaRadius|
      ∧ (lineWidth ≤ outerRadius - innerRadius →
          m.m_radius - m.m_deltaRadius
              ≤ getRadius (CMath.mk Real.cos Real.sin Real.sqrt Real.pi) m theta
            ∧ getRadius (CMath.mk Real.cos Real.sin Real.sqrt Real.pi) m theta
              ≤ m.m_radius + m.m_deltaRadius) := by
  rw [construct_eq leads bights _ _ _ (by omega)]
  have hbound := constructed_radius_bounds leads bights innerRadius outerRadius lineWidth theta
  refine ⟨_, rfl, rfl, rfl, ?_, hbound, ?_⟩
  · unfold getRadius angleFromTheta
    simp only [constructed, s_stepsTheta]
    norm_num
  · intro hw
    have hA : 0 ≤ (outerRadius - innerRadius - lineWidth) / 2 := by linarith
    rw [abs_of_nonneg hA, abs_le] at hbound
    show (innerRadius + outerRadius) / 2 - (outerRadius - innerRadius - lineWidth) / 2 ≤ _
      ∧ _ ≤ (innerRadius + outerRadius) / 2 + (outerRadius - innerRadius - lineWidth) / 2
    constructor <;> linarith [hbound.1, hbound.2]

/-- C12 (witness): `leads = 3`, `bights = 5`, radii 40 and 60, `lineWidth = 2`,
`theta = 0`: the radius lies in `[41, 59]`. -/
theorem getRadius_within_amplitude_witness :
    (1 : Int) ≤ 3 ∧ (1 : Int) ≤ 5 ∧ (2 : ℝ) ≤ 60 - 40
      ∧ ∃ m, construct 3 5 (40 : ℝ) 60 2 = Except.ok m
          ∧ m.m_radius - m.m_deltaRadius
              ≤ getRadius (CMath.mk Real.cos Real.sin Real.sqrt Real.pi) m 0
          ∧ getRadius (CMath.mk Real.cos Real.sin Real.sqrt Real.pi) m 0
              ≤ m.m_radius + m.m_deltaRadius :=
  ⟨by decide, by decide, by norm_num,
    let ⟨m, hm, _, _, _, _, hin⟩ :=
      getRadius_within_amplitude 3 5 (40 : ℝ) 60 2 0 (by decide) (by decide)
    ⟨m, hm, (hin (by norm_num)).1, (hin (by norm_num)).2⟩⟩

/-! ## Coordinates and the ribbon -/

theorem norm_of_polar (r a : ℝ) :
    Real.sqrt ((r * Real.cos a) ^ 2 + (r * Real.sin a) ^ 2) = |r| := by
  have h : (r * Real.cos a) ^ 2 + (r * Real.sin a) ^ 2 = r ^ 2 := by
    have := Real.cos_sq_add_sin_sq a
    nlinarith [this]
  rw [h, Real.sqrt_sq_eq_abs]

/-- C13 (counterexample): with `leads = 3`, `bights = 5`, radii 40 and 60 and
`lineWidth = 130` the radius at `theta = 0` is `50 + (-55) = -5`, the point is
`(-5, 0)` and its distance from the origin is `5`, not `-5`. -/
theorem coordinates_norm_differs_for_negative_radius :
    ∃ m, construct 3 5 (40 : ℝ) 60 130 = Except.ok m
      ∧ (40 : ℝ) < 60
      ∧ getRadius (CMath.mk Real.cos Real.sin Real.sqrt Real.pi) m 0 = -5
      ∧ getCoordinates (CMath.mk Real.cos Real.sin Real.sqrt Real.pi) m 0 = (-5, 0)
      ∧ Real.sqrt
            ((getCoordinates (CMath.mk Real.cos Real.sin Real.sqrt Real.pi) m 0).1 ^ 2
              + (getCoordinates (CMath.mk Real.cos Real.sin Real.sqrt Real.pi) m 0).2 ^ 2) = 5
      ∧ Real.sqrt
            ((getCoordinates (CMath.mk Real.cos Real.sin Real.sqrt Real.pi) m 0).1 ^ 2
              + (getCoordinates (CMath.mk Real.cos Real.sin Real.sqrt Real.pi) m 0).2 ^ 2)
          ≠ getRadius (CMath.mk Real.cos Real.sin Real.sqrt Real.pi) m 0 := by
  rw [construct_eq 3 5 _ _ _ (by decide)]
  have hr : getRadius (CMath.mk Real.cos Real.sin Real.sqrt Real.pi)
      (constructed 3 5 (40 : ℝ) 60 130) 0 = -5 := by
    unfold getRadius angleFromTheta
    simp only [constructed]
    norm_num
  have hc : getCoordinates (CMath.mk Real.cos Real.sin Real.sqrt Real.pi)
      (constructed 3 5 (40 : ℝ) 60 130) 0 = (-5, 0) := by
    unfold getCoordinates convertRadialToCartesianCoordinates
    rw [hr]
    unfold angleFromTheta
    simp
  have hn : Real.sqrt
      ((getCoordinates (CMath.mk Real.cos Real.sin Real.sqrt Real.pi)
          (constructed 3 5 (40 : ℝ) 60 130) 0).1 ^ 2
        + (getCoordinates (CMath.mk Real.cos Real.sin Real.sqrt Real.pi)
          (constructed 3 5 (40 : ℝ) 60 130) 0).2 ^ 2) = 5 := by
    rw [hc]
    simp only
    have e : ((-5 : ℝ)) ^ 2 + (0 : ℝ) ^ 2 = 5 ^ 2 := by norm_num
    rw [e, Real.sqrt_sq (by norm_num)]
  refine ⟨_, rfl, by norm_num, hr, hc, hn, ?_⟩
  rw [hn, hr]
  norm_num

/-- C13 (amended): for `leads ≥ 1`, `bights ≥ 1` and every integer `theta` the point
`(x, y) = getCoordinates( theta )` is `(r cos(angle), r sin(angle))` for
`r = getRadius( theta )` and satisfies `sqrt(x² + y²) = |r|`; this is `r` whenever
`r ≥ 0`, which holds when `innerRadius ≥ 0` and `0 ≤ lineWidth ≤ outerRadius - innerRadius`. -/
theorem coordinates_norm_eq_abs_radius (leads bights : Int)
    (innerRadius outerRadius lineWidth : ℝ) (theta : Int)
    (hl : 1 ≤ leads) (_hb : 1 ≤ bights) :
    ∃ m, construct leads bights innerRadius outerRadius lineWidth = Except.ok m
      ∧ getCoordinates (CMath.mk Real.cos Real.sin Real.sqrt Real.pi) m theta
          = (getRadius (CMath.mk Real.cos Real.sin Real.sqrt Real.pi) m theta
                * Real.cos (angleFromTheta (CMath.mk Real.cos Real.sin Real.sqrt Real.pi) m theta),
             getRadius (CMath.mk Real.cos Real.sin Real.sqrt Real.pi) m theta
                * Real.sin (angleFromTheta (CMath.mk Real.cos Real.sin Real.sqrt Real.pi) m theta))
      ∧ Real.sqrt
            ((getCoordinates (CMath.mk Real.cos Real.sin Real.sqrt Real.pi) m theta).1 ^ 2
              + (getCoordinates (CMath.mk Real.cos Real.sin Real.sqrt Real.pi) m theta).2 ^ 2)
          = |getRadius (CMath.mk Real.cos Real.sin Real.sqrt Real.pi) m theta|
      ∧ (0 ≤ getRadius (CMath.mk Real.cos Real.sin Real.sqrt Real.pi) m theta →
          Real.sqrt
              ((getCoordinates (CMath.mk Real.cos Real.sin Real.sqrt Real.pi) m theta).1 ^ 2
                + (getCoordinates (CMath.mk Real.cos Real.sin Real.sqrt Real.pi) m theta).2 ^ 2)
            = getRadius (CMath.mk Real.cos Real.sin Real.sqrt Real.pi) m theta)
      ∧ (0 ≤ innerRadius → 0 ≤ lineWidth → lineWidth ≤ outerRadius - innerRadius →
          0 ≤ getRadius (CMath.mk Real.cos Real.sin Real.sqrt Real.pi) m theta) := by
  rw [construct_eq leads bights _ _ _ (by omega)]
  have hnorm : Real.sqrt
      ((getCoordinates (CMath.mk Real.cos Real.sin Real.sqrt Real.pi)
          (constructed leads bights innerRadius outerRadius lineWidth) theta).1 ^ 2
        + (getCoordinates (CMath.mk Real.cos Real.sin Real.sqrt Real.pi)
          (constructed leads bights innerRadius outerRadius lineWidth) theta).2 ^ 2)
      = |getRadius (CMath.mk Real.cos Real.sin Real.sqrt Real.pi)
          (constructed leads bights innerRadius outerRadius lineWidth) theta| :=
    norm_of_polar _ _
  refine ⟨_, rfl, rfl, hnorm, ?_, ?_⟩
  · intro h
    rw [hnorm, abs_of_nonneg h]
  · intro hi hw0 hw
    have hbound := constructed_radius_bounds leads bights innerRadius outerRadius lineWidth theta
    have hA : 0 ≤ (outerRadius - innerRadius - lineWidth) / 2 := by linarith
    rw [abs_of_nonneg hA, abs_le] at hbound
    linarith [hbound.1]

/-- C13 (witness): `leads = 3`, `bights = 5`, radii 40 and 60, `lineWidth = 2`,
`theta = 7`: the distance of the point from the origin is the radius. -/
theorem coordinates_norm_eq_abs_radius_witness :
    (1 : Int) ≤ 3 ∧ (1 : Int) ≤ 5
      ∧ ∃ m, construct 3 5 (40 : ℝ) 60 2 = Except.ok m
          ∧ Real.sqrt
                ((getCoordinates (CMath.mk Real.cos Real.sin Real.sqrt Real.pi) m 7).1 ^ 2
                  + (getCoordinates (CMath.mk Real.cos Real.sin Real.sqrt Real.pi) m 7).2 ^ 2)
              = getRadius (CMath.mk Real.cos Real.sin Real.sqrt Real.pi) m 7 :=
  ⟨by decide, by decide,
    let ⟨m, hm, _, _, hpos, hgeo⟩ :=
      coordinates_norm_eq_abs_radius 3 5 (40 : ℝ) 60 2 7 (by decide) (by decide)
    ⟨m, hm, hpos (hgeo (by norm_num) (by norm_num) (by norm_num))⟩⟩

theorem drawSegment_offsets (m : TurksHead ℝ) (theta : Int) (ctx : Canvas ℝ)
    (x0 y0 x1 y1 dx dy n nx ny : ℝ)
    (h0 : (x0, y0) = getCoordinates (CMath.mk Real.cos Real.sin Real.sqrt Real.pi) m (theta - 1))
    (h1 : (x1, y1) = getCoordinates (CMath.mk Real.cos Real.sin Real.sqrt Real.pi) m (theta + 1))
    (hdx : dx = x1 - x0) (hdy : dy = y1 - y0)
    (hn : n = Real.sqrt (dx ^ 2 + dy ^ 2))
    (hnx : nx = -m.m_lineWidth * dy / (2 * n)) (hny : ny = m.m_lineWidth * dx / (2 * n)) :
    drawSegment (CMath.mk Real.cos Real.sin Real.sqrt Real.pi) m theta ctx
      = ctx ++ [Cmd.move_to (x0 + nx) (y0 + ny), Cmd.line_to (x1 + nx) (y1 + ny),
                Cmd.line_to (x1 - nx) (y1 - ny), Cmd.line_to (x0 - nx) (y0 - ny),
                Cmd.close_path] := by
  have hx0 : x0 = (getCoordinates (CMath.mk Real.cos Real.sin Real.sqrt Real.pi) m
      (theta - 1)).1 := by rw [← h0]
  have hy0 : y0 = (getCoordinates (CMath.mk Real.cos Real.sin Real.sqrt Real.pi) m
      (theta - 1)).2 := by rw [← h0]
  have hx1 : x1 = (getCoordinates (CMath.mk Real.cos Real.sin Real.sqrt Real.pi) m
      (theta + 1)).1 := by rw [← h1]
  have hy1 : y1 = (getCoordinates (CMath.mk Real.cos Real.sin Real.sqrt Real.pi) m
      (theta + 1)).2 := by rw [← h1]
  unfold drawSegment
  simp only [← hx0, ← hy0, ← hx1, ← hy1, ← hdx, ← hdy]
  have hn' : Real.sqrt (dx * dx + dy * dy) = n := by
    rw [hn]
    congr 1
    ring
  rw [hn']
  have e1 : -m.m_lineWidth * dy / n / 2 = nx := by
    rw [hnx, div_div, mul_comm n 2]
  have e2 : m.m_lineWidth * dx / n / 2 = ny := by
    rw [hny, div_div, mul_comm n 2]
  rw [e1, e2]

/-- C14: in `drawSegment( theta )`, when the direction `(dx, dy)` from
`getCoordinates( theta - 1 )` to `getCoordinates( theta + 1 )` is not zero, the offset
`(nx, ny) = (-lineWidth dy / (2n), lineWidth dx / (2n))` with `n = sqrt(dx² + dy²)` is
orthogonal to `(dx, dy)` and has length `|lineWidth| / 2`; the calls appended are
`move_to(x0+nx, y0+ny)`, `line_to(x1+nx, y1+ny)`, `line_to(x1-nx, y1-ny)`,
`line_to(x0-nx, y0-ny)`, `close_path`: a rectangle whose long sides are the chord
moved by `±(nx, ny)`, whose short sides have length `|lineWidth|` and have the two
ends of the chord as midpoints. -/
theorem drawSegment_rectangle (m : TurksHead ℝ) (theta : Int) (ctx : Canvas ℝ)
    (x0 y0 x1 y1 dx dy n nx ny : ℝ)
    (h0 : (x0, y0) = getCoordinates (CMath.mk Real.cos Real.sin Real.sqrt Real.pi) m (theta - 1))
    (h1 : (x1, y1) = getCoordinates (CMath.mk Real.cos Real.sin Real.sqrt Real.pi) m (theta + 1))
    (hdx : dx = x1 - x0) (hdy : dy = y1 - y0)
    (hn : n = Real.sqrt (dx ^ 2 + dy ^ 2))
    (hnx : nx = -m.m_lineWidth * dy / (2 * n)) (hny : ny = m.m_lineWidth * dx / (2 * n))
    (hne : dx ≠ 0 ∨ dy ≠ 0) :
    nx * dx + ny * dy = 0
      ∧ Real.sqrt (nx ^ 2 + ny ^ 2) = |m.m_lineWidth| / 2
      ∧ drawSegment (CMath.mk Real.cos Real.sin Real.sqrt Real.pi) m theta ctx
          = ctx ++ [Cmd.move_to (x0 + nx) (y0 + ny), Cmd.line_to (x1 + nx) (y1 + ny),
                    Cmd.line_to (x1 - nx) (y1 - ny), Cmd.line_to (x0 - nx) (y0 - ny),
                    Cmd.close_path]
      ∧ ((x1 + nx) - (x0 + nx) = dx ∧ (y1 + ny) - (y0 + ny) = dy)
      ∧ ((x1 - nx) - (x0 - nx) = dx ∧ (y1 - ny) - (y0 - ny) = dy)
      ∧ Real.sqrt (((x0 + nx) - (x0 - nx)) ^ 2 + ((y0 + ny) - (y0 - ny)) ^ 2) = |m.m_lineWidth|
      ∧ (((x0 + nx) + (x0 - nx)) / 2 = x0 ∧ ((y0 + ny) + (y0 - ny)) / 2 = y0)
      ∧ (((x1 + nx) + (x1 - nx)) / 2 = x1 ∧ ((y1 + ny) + (y1 - ny)) / 2 = y1) := by
  have hsq : 0 < dx ^ 2 + dy ^ 2 := by
    rcases hne with h | h
    · have := sq_pos_of_ne_zero h
      nlinarith [sq_nonneg dy]
    · have := sq_pos_of_ne_zero h
      nlinarith [sq_nonneg dx]
  have hnpos : 0 < n := by
    rw [hn]
    exact Real.sqrt_pos.mpr hsq
  have hnsq : n ^ 2 = dx ^ 2 + dy ^ 2 := by
    rw [hn, Real.sq_sqrt (le_of_lt hsq)]
  have hlen2 : nx ^ 2 + ny ^ 2 = (m.m_lineWidth / 2) ^ 2 := by
    rw [hnx, hny]
    field_simp
    have e : m.m_lineWidth ^ 2 * (2 * n) ^ 2 = m.m_lineWidth ^ 2 * 4 * n ^ 2 := by ring
    rw [e, hnsq]
    ring
  have hlen : Real.sqrt (nx ^ 2 + ny ^ 2) = |m.m_lineWidth| / 2 := by
    rw [hlen2, Real.sqrt_sq_eq_abs, abs_div]
    norm_num
  refine ⟨?_, hlen, drawSegment_offsets m theta ctx x0 y0 x1 y1 dx dy n nx ny h0 h1 hdx hdy hn
    hnx hny, ⟨by rw [hdx]; ring, by rw [hdy]; ring⟩, ⟨by rw [hdx]; ring, by rw [hdy]; ring⟩,
    ?_, ⟨by ring, by ring⟩, ⟨by ring, by ring⟩⟩
  · rw [hnx, hny]
    field_simp
    ring
  · have e : ((x0 + nx) - (x0 - nx)) ^ 2 + ((y0 + ny) - (y0 - ny)) ^ 2
        = (m.m_lineWidth) ^ 2 := by
      have : ((x0 + nx) - (x0 - nx)) ^ 2 + ((y0 + ny) - (y0 - ny)) ^ 2
          = 4 * (nx ^ 2 + ny ^ 2) := by ring
      rw [this, hlen2]
      ring
    rw [e, Real.sqrt_sq_eq_abs]

/-! ## The curve closes up -/

theorem constructed_maxTheta_mul_paths {α : Type} [LinearOrderedField α] (leads bights : Int)
    (innerRadius outerRadius lineWidth : α) (hl : 1 ≤ leads) (hb : 1 ≤ bights) :
    (constructed leads bights innerRadius outerRadius lineWidth).m_maxThetaOnPath
        * (constructed leads bights innerRadius outerRadius lineWidth).m_paths
      = 2 * leads * bights * 20
      ∧ 0 < (constructed leads bights innerRadius outerRadius lineWidth).m_paths := by
  have hgl : ((Int.gcd bights leads : Int)) ∣ leads := Int.gcd_dvd_right
  have hgpos : (0 : Int) < (Int.gcd bights leads : Int) := by
    have : 0 < Int.gcd bights leads := Int.gcd_pos_of_ne_zero_right _ (by omega)
    exact_mod_cast this
  have hnum : (0 : Int) ≤ 2 * leads * bights * 20 := by positivity
  have hdvd : ((Int.gcd bights leads : Int)) ∣ 2 * leads * bights * 20 :=
    Dvd.dvd.mul_right (Dvd.dvd.mul_right (Dvd.dvd.mul_left hgl 2) bights) 20
  refine ⟨?_, hgpos⟩
  show Int.tdiv (2 * leads * bights * s_stepsTheta) (Int.gcd bights leads : Int)
    * (Int.gcd bights leads : Int) = 2 * leads * bights * 20
  simp only [s_stepsTheta]
  rw [Int.tdiv_eq_ediv hnum (le_of_lt hgpos), Int.ediv_mul_cancel hdvd]

theorem angleFromTheta_real (m : TurksHead ℝ) (theta : Int) :
    angleFromTheta (CMath.mk Real.cos Real.sin Real.sqrt Real.pi) m theta
      = Real.pi * (theta : ℝ) / (m.m_bights : ℝ) / 20 := by
  unfold angleFromTheta
  simp only [s_stepsTheta]
  norm_num

/-- C15: for `leads ≥ 1`, `bights ≥ 1` with `2 * leads * bights * 20` inside the
`int` range (so that the `int` product behind `m_maxThetaOnPath` does not overflow),
`m_maxThetaOnPath` is the exact quotient of that product by `m_paths`, an `int` value,
the angle at `m_maxThetaOnPath` is `2π leads / m_paths`, every `theta` in
`0 .. m_maxThetaOnPath` has its angle in `[0, 2π leads / m_paths]`, the argument
`bights * angle / leads` of the radius at `m_maxThetaOnPath` is
`2π bights / m_paths = k * 2π` for the integer `k = bights / m_paths`, and the radius
and the point at `m_maxThetaOnPath` are those at `0`. -/
theorem curve_closes (leads bights : Int) (innerRadius outerRadius lineWidth : ℝ)
    (hl : 1 ≤ leads) (hb : 1 ≤ bights) (hr : 2 * leads * bights * 20 ≤ 2 ^ 31 - 1) :
    ∃ m, construct leads bights innerRadius outerRadius lineWidth = Except.ok m
      ∧ m.m_paths = (Int.gcd leads bights : Int)
      ∧ m.m_maxThetaOnPath * m.m_paths = 2 * leads * bights * 20
      ∧ (0 < m.m_maxThetaOnPath ∧ m.m_maxThetaOnPath ≤ 2 ^ 31 - 1)
      ∧ angleFromTheta (CMath.mk Real.cos Real.sin Real.sqrt Real.pi) m m.m_maxThetaOnPath
          = 2 * Real.pi * (leads : ℝ) / (m.m_paths : ℝ)
      ∧ angleFromTheta (CMath.mk Real.cos Real.sin Real.sqrt Real.pi) m 0 = 0
      ∧ (∀ theta : Int, 0 ≤ theta → theta ≤ m.m_maxThetaOnPath →
          0 ≤ angleFromTheta (CMath.mk Real.cos Real.sin Real.sqrt Real.pi) m theta
            ∧ angleFromTheta (CMath.mk Real.cos Real.sin Real.sqrt Real.pi) m theta
                ≤ 2 * Real.pi * (leads : ℝ) / (m.m_paths : ℝ))
      ∧ (∃ k : Int, k * m.m_paths = bights
          ∧ (bights : ℝ)
                * angleFromTheta (CMath.mk Real.cos Real.sin Real.sqrt Real.pi) m
                    m.m_maxThetaOnPath / (leads : ℝ)
              = 2 * Real.pi * (bights : ℝ) / (m.m_paths : ℝ)
          ∧ (bights : ℝ)
                * angleFromTheta (CMath.mk Real.cos Real.sin Real.sqrt Real.pi) m
                    m.m_maxThetaOnPath / (leads : ℝ)
              = (k : ℝ) * (2 * Real.pi))
      ∧ getRadius (CMath.mk Real.cos Real.sin Real.sqrt Real.pi) m m.m_maxThetaOnPath
          = getRadius (CMath.mk Real.cos Real.sin Real.sqrt Real.pi) m 0
      ∧ getCoordinates (CMath.mk Real.cos Real.sin Real.sqrt Real.pi) m m.m_maxThetaOnPath
          = getCoordinates (CMath.mk Real.cos Real.sin Real.sqrt Real.pi) m 0 := by
  have hmaxb := constructed_maxTheta_bounds leads bights innerRadius outerRadius lineWidth
    hl hb
  rw [construct_eq leads bights _ _ _ (by omega)]
  obtain ⟨hmulZ, hgposZ⟩ := constructed_maxTheta_mul_paths leads bights innerRadius
    outerRadius lineWidth hl hb
  generalize hm : constructed leads bights innerRadius outerRadius lineWidth = m
    at hmulZ hgposZ hmaxb
  have hmb : m.m_bights = bights := by rw [← hm]; rfl
  have hml : m.m_leads = leads := by rw [← hm]; rfl
  have hmp : m.m_paths = (Int.gcd bights leads : Int) := by rw [← hm]; rfl
  have hL : (0 : ℝ) < (leads : ℝ) := by exact_mod_cast (by omega : (0 : Int) < leads)
  have hB : (0 : ℝ) < (bights : ℝ) := by exact_mod_cast (by omega : (0 : Int) < bights)
  have hG : (0 : ℝ) < (m.m_paths : ℝ) := by exact_mod_cast hgposZ
  have hmul : (m.m_maxThetaOnPath : ℝ) * (m.m_paths : ℝ)
      = 2 * (leads : ℝ) * (bights : ℝ) * 20 := by exact_mod_cast hmulZ
  have hmaxv : (m.m_maxThetaOnPath : ℝ)
      = 2 * (leads : ℝ) * (bights : ℝ) * 20 / (m.m_paths : ℝ) := by
    rw [eq_div_iff (ne_of_gt hG)]
    exact hmul
  have hangle : ∀ theta : Int,
      angleFromTheta (CMath.mk Real.cos Real.sin Real.sqrt Real.pi) m theta
        = Real.pi * (theta : ℝ) / (bights : ℝ) / 20 := by
    intro theta
    rw [angleFromTheta_real, hmb]
  have hamax : angleFromTheta (CMath.mk Real.cos Real.sin Real.sqrt Real.pi) m
      m.m_maxThetaOnPath = 2 * Real.pi * (leads : ℝ) / (m.m_paths : ℝ) := by
    rw [hangle, hmaxv]
    field_simp
    ring
  have ha0 : angleFromTheta (CMath.mk Real.cos Real.sin Real.sqrt Real.pi) m 0 = 0 := by
    rw [hangle]
    simp
  -- the integers bights / m_paths and leads / m_paths
  obtain ⟨kb, hkb⟩ : m.m_paths ∣ bights := by rw [hmp]; exact Int.gcd_dvd_left
  obtain ⟨kl, hkl⟩ : m.m_paths ∣ leads := by rw [hmp]; exact Int.gcd_dvd_right
  have hkbR : (bights : ℝ) = (m.m_paths : ℝ) * (kb : ℝ) := by exact_mod_cast hkb
  have hklR : (leads : ℝ) = (m.m_paths : ℝ) * (kl : ℝ) := by exact_mod_cast hkl
  have harg : (bights : ℝ)
      * angleFromTheta (CMath.mk Real.cos Real.sin Real.sqrt Real.pi) m m.m_maxThetaOnPath
        / (leads : ℝ) = 2 * Real.pi * (bights : ℝ) / (m.m_paths : ℝ) := by
    rw [hamax]
    field_simp
    ring
  have hargk : (bights : ℝ)
      * angleFromTheta (CMath.mk Real.cos Real.sin Real.sqrt Real.pi) m m.m_maxThetaOnPath
        / (leads : ℝ) = (kb : ℝ) * (2 * Real.pi) := by
    rw [harg]
    nth_rewrite 1 [hkbR]
    field_simp
    ring
  have hamaxk : angleFromTheta (CMath.mk Real.cos Real.sin Real.sqrt Real.pi) m
      m.m_maxThetaOnPath = (kl : ℝ) * (2 * Real.pi) := by
    rw [hamax]
    nth_rewrite 1 [hklR]
    field_simp
    ring
  have hrad : getRadius (CMath.mk Real.cos Real.sin Real.sqrt Real.pi) m m.m_maxThetaOnPath
      = getRadius (CMath.mk Real.cos Real.sin Real.sqrt Real.pi) m 0 := by
    unfold getRadius
    rw [hmb, hml, hargk, ha0]
    simp only [mul_zero, zero_div]
    rw [Real.cos_int_mul_two_pi, Real.cos_zero]
  refine ⟨m, rfl, by rw [hmp, Int.gcd_comm], hmulZ, ⟨hmaxb.1, by have := hmaxb.2; omega⟩,
    hamax, ha0, ?_, ⟨kb, ?_, harg, hargk⟩, hrad, ?_⟩
  · intro theta h0 h1
    have h0R : (0 : ℝ) ≤ (theta : ℝ) := by exact_mod_cast h0
    have h1R : (theta : ℝ) ≤ (m.m_maxThetaOnPath : ℝ) := by exact_mod_cast h1
    rw [← hamax, hangle, hangle]
    have hpi := Real.pi_pos
    constructor
    · positivity
    · apply div_le_div_of_nonneg_right _ (by norm_num : (0 : ℝ) ≤ 20)
      apply div_le_div_of_nonneg_right _ (le_of_lt hB)
      exact mul_le_mul_of_nonneg_left h1R (le_of_lt hpi)
  · rw [hkb]
    ring
  · unfold getCoordinates convertRadialToCartesianCoordinates
    rw [hrad, hamaxk, ha0]
    have hs : Real.sin ((kl : ℝ) * (2 * Real.pi)) = 0 := by
      have e : (kl : ℝ) * (2 * Real.pi) = ((2 * kl : Int) : ℝ) * Real.pi := by
        push_cast
        ring
      rw [e, Real.sin_int_mul_pi]
    simp only [Real.cos_int_mul_two_pi, hs, Real.cos_zero, Real.sin_zero]

/-- C15 (witness): `leads = 3`, `bights = 5` (product `600`): the point at
`theta = 600` is the point at `theta = 0`. -/
theorem curve_closes_witness :
    (1 : Int) ≤ 3 ∧ (1 : Int) ≤ 5 ∧ (2 * 3 * 5 * 20 : Int) ≤ 2 ^ 31 - 1
      ∧ ∃ m, construct 3 5 (40 : ℝ) 60 2 = Except.ok m
          ∧ m.m_maxThetaOnPath = 600
          ∧ getCoordinates (CMath.mk Real.cos Real.sin Real.sqrt Real.pi) m 600
              = getCoordinates (CMath.mk Real.cos Real.sin Real.sqrt Real.pi) m 0 :=
  ⟨by decide, by decide, by decide,
    let ⟨m, hm, _, _, _, _, _, _, _, _, hc⟩ :=
      curve_closes 3 5 (40 : ℝ) 60 2 (by decide) (by decide) (by decide)
    have hmeq : m = constructed 3 5 (40 : ℝ) 60 2 := by
      rw [construct_eq 3 5 _ _ _ (by decide)] at hm
      exact (Except.ok.inj hm).symm
    have hmax : m.m_maxThetaOnPath = 600 := by
      rw [hmeq]
      exact (constructed_3_5 (40 : ℝ) 60 2).2
    ⟨m, hm, hmax, by rw [← hmax]; exact hc⟩⟩

/-! ## The division by `n` in `drawSegment` -/

theorem constructed_radius_pos (leads bights : Int) (innerRadius outerRadius lineWidth : ℝ)
    (theta : Int) (hi : 0 ≤ innerRadius) (hw0 : 0 < lineWidth)
    (hw : lineWidth ≤ outerRadius - innerRadius) :
    0 < getRadius (CMath.mk Real.cos Real.sin Real.sqrt Real.pi)
      (constructed leads bights innerRadius outerRadius lineWidth) theta := by
  have hbound := constructed_radius_bounds leads bights innerRadius outerRadius lineWidth theta
  have hA : 0 ≤ (outerRadius - innerRadius - lineWidth) / 2 := by linarith
  rw [abs_of_nonneg hA, abs_le] at hbound
  linarith [hbound.1]

theorem polar_points_distinct (r0 r1 a0 a1 : ℝ) (h0 : 0 < r0) (h1 : 0 < r1)
    (hd0 : 0 < a1 - a0) (hd1 : a1 - a0 < Real.pi) :
    (r0 * Real.cos a0, r0 * Real.sin a0) ≠ (r1 * Real.cos a1, r1 * Real.sin a1) := by
  intro heq
  have hx : r0 * Real.cos a0 = r1 * Real.cos a1 := congrArg Prod.fst heq
  have hy : r0 * Real.sin a0 = r1 * Real.sin a1 := congrArg Prod.snd heq
  have hsin : 0 < Real.sin (a1 - a0) := Real.sin_pos_of_pos_of_lt_pi hd0 hd1
  have hprod : 0 < r0 * r1 * Real.sin (a1 - a0) := mul_pos (mul_pos h0 h1) hsin
  have hzero : r0 * r1 * Real.sin (a1 - a0) = 0 := by
    rw [Real.sin_sub]
    have e : r0 * r1 * (Real.sin a1 * Real.cos a0 - Real.cos a1 * Real.sin a0)
        = (r1 * Real.sin a1) * (r0 * Real.cos a0) - (r1 * Real.cos a1) * (r0 * Real.sin a0) := by
      ring
    rw [e, hx, hy]
    ring
  linarith

theorem constructed_coordinates_distinct (leads bights : Int)
    (innerRadius outerRadius lineWidth : ℝ) (theta : Int) (hb : 1 ≤ bights)
    (hi : 0 ≤ innerRadius) (hw0 : 0 < lineWidth) (hw : lineWidth ≤ outerRadius - innerRadius) :
    getCoordinates (CMath.mk Real.cos Real.sin Real.sqrt Real.pi)
        (constructed leads bights innerRadius outerRadius lineWidth) (theta - 1)
      ≠ getCoordinates (CMath.mk Real.cos Real.sin Real.sqrt Real.pi)
        (constructed leads bights innerRadius outerRadius lineWidth) (theta + 1) := by
  have hB : (1 : ℝ) ≤ (bights : ℝ) := by exact_mod_cast hb
  have hBpos : (0 : ℝ) < (bights : ℝ) := by linarith
  have hdiff : angleFromTheta (CMath.mk Real.cos Real.sin Real.sqrt Real.pi)
        (constructed leads bights innerRadius outerRadius lineWidth) (theta + 1)
      - angleFromTheta (CMath.mk Real.cos Real.sin Real.sqrt Real.pi)
        (constructed leads bights innerRadius outerRadius lineWidth) (theta - 1)
      = Real.pi / (10 * (bights : ℝ)) := by
    rw [angleFromTheta_real, angleFromTheta_real]
    show Real.pi * ((theta + 1 : Int) : ℝ) / (bights : ℝ) / 20
      - Real.pi * ((theta - 1 : Int) : ℝ) / (bights : ℝ) / 20 = _
    push_cast
    field_simp
    ring
  have hpi := Real.pi_pos
  unfold getCoordinates convertRadialToCartesianCoordinates
  apply polar_points_distinct
  · exact constructed_radius_pos leads bights _ _ _ _ hi hw0 hw
  · exact constructed_radius_pos leads bights _ _ _ _ hi hw0 hw
  · rw [hdiff]
    positivity
  · rw [hdiff, div_lt_iff₀ (by positivity)]
    nlinarith

theorem sqrt_pos_of_distinct (p q : ℝ × ℝ) (h : p ≠ q) :
    0 < Real.sqrt ((q.1 - p.1) * (q.1 - p.1) + (q.2 - p.2) * (q.2 - p.2)) := by
  rw [Real.sqrt_pos]
  have hne : q.1 - p.1 ≠ 0 ∨ q.2 - p.2 ≠ 0 := by
    by_contra hcon
    push_neg at hcon
    apply h
    exact Prod.ext (by linarith [hcon.1]) (by linarith [hcon.2])
  rcases hne with h1 | h1
  · have := mul_self_pos.mpr h1
    nlinarith [mul_self_nonneg (q.2 - p.2)]
  · have := mul_self_pos.mpr h1
    nlinarith [mul_self_nonneg (q.1 - p.1)]

/-- C18: for `leads ≥ 1`, `bights ≥ 1`, `innerRadius ≥ 0`, `outerRadius > innerRadius`
and `0 < lineWidth ≤ outerRadius - innerRadius`, for every integer `theta` (so for
every `theta` in `0 .. m_maxThetaOnPath`) the points `getCoordinates( theta - 1 )` and
`getCoordinates( theta + 1 )` are distinct, and the divisor
`n = sqrt( dx * dx + dy * dy )` of `drawSegment` is positive. -/
theorem drawSegment_divisor_pos (leads bights : Int) (innerRadius outerRadius lineWidth : ℝ)
    (hl : 1 ≤ leads) (hb : 1 ≤ bights) (hi : 0 ≤ innerRadius)
    (_hio : innerRadius < outerRadius) (hw0 : 0 < lineWidth)
    (hw : lineWidth ≤ outerRadius - innerRadius) :
    ∃ m, construct leads bights innerRadius outerRadius lineWidth = Except.ok m
      ∧ ∀ theta : Int,
          getCoordinates (CMath.mk Real.cos Real.sin Real.sqrt Real.pi) m (theta - 1)
              ≠ getCoordinates (CMath.mk Real.cos Real.sin Real.sqrt Real.pi) m (theta + 1)
            ∧ 0 < Real.sqrt
                (((getCoordinates (CMath.mk Real.cos Real.sin Real.sqrt Real.pi) m (theta + 1)).1
                    - (getCoordinates (CMath.mk Real.cos Real.sin Real.sqrt Real.pi) m
                        (theta - 1)).1)
                  * ((getCoordinates (CMath.mk Real.cos Real.sin Real.sqrt Real.pi) m
                        (theta + 1)).1
                    - (getCoordinates (CMath.mk Real.cos Real.sin Real.sqrt Real.pi) m
                        (theta - 1)).1)
                + ((getCoordinates (CMath.mk Real.cos Real.sin Real.sqrt Real.pi) m
                        (theta + 1)).2
                    - (getCoordinates (CMath.mk Real.cos Real.sin Real.sqrt Real.pi) m
                        (theta - 1)).2)
                  * ((getCoordinates (CMath.mk Real.cos Real.sin Real.sqrt Real.pi) m
                        (theta + 1)).2
                    - (getCoordinates (CMath.mk Real.cos Real.sin Real.sqrt Real.pi) m
                        (theta - 1)).2)) := by
  rw [construct_eq leads bights _ _ _ (by omega)]
  refine ⟨_, rfl, ?_⟩
  intro theta
  have hd := constructed_coordinates_distinct leads bights innerRadius outerRadius lineWidth
    theta hb hi hw0 hw
  exact ⟨hd, sqrt_pos_of_distinct _ _ hd⟩

/-- C18 (witness): `leads = 3`, `bights = 5`, radii 40 and 60, `lineWidth = 2`: the
points at `theta - 1 = -1` and `theta + 1 = 1` of the first segment are distinct. -/
theorem drawSegment_divisor_pos_witness :
    ((1 : Int) ≤ 3 ∧ (1 : Int) ≤ 5 ∧ (0 : ℝ) ≤ 40 ∧ (40 : ℝ) < 60 ∧ (0 : ℝ) < 2
        ∧ (2 : ℝ) ≤ 60 - 40)
      ∧ ∃ m, construct 3 5 (40 : ℝ) 60 2 = Except.ok m
          ∧ getCoordinates (CMath.mk Real.cos Real.sin Real.sqrt Real.pi) m (0 - 1)
              ≠ getCoordinates (CMath.mk Real.cos Real.sin Real.sqrt Real.pi) m (0 + 1) :=
  ⟨⟨by decide, by decide, by norm_num, by norm_num, by norm_num, by norm_num⟩,
    let ⟨m, hm, hall⟩ := drawSegment_divisor_pos 3 5 (40 : ℝ) 60 2 (by decide) (by decide)
      (by norm_num) (by norm_num) (by norm_num) (by norm_num)
    ⟨m, hm, (hall 0).1⟩⟩

/-- C14 (witness): `leads = 3`, `bights = 5`, radii 40 and 60, `lineWidth = 2`,
`theta = 0`: the direction of the first segment is not zero, the offset is orthogonal
to it and has length `1`. -/
theorem drawSegment_rectangle_witness :
    ∃ x0 y0 x1 y1 dx dy n nx ny : ℝ,
      (x0, y0) = getCoordinates (CMath.mk Real.cos Real.sin Real.sqrt Real.pi)
          (constructed 3 5 (40 : ℝ) 60 2) (0 - 1)
        ∧ (x1, y1) = getCoordinates (CMath.mk Real.cos Real.sin Real.sqrt Real.pi)
          (constructed 3 5 (40 : ℝ) 60 2) (0 + 1)
        ∧ dx = x1 - x0 ∧ dy = y1 - y0 ∧ n = Real.sqrt (dx ^ 2 + dy ^ 2)
        ∧ nx = -(constructed 3 5 (40 : ℝ) 60 2).m_lineWidth * dy / (2 * n)
        ∧ ny = (constructed 3 5 (40 : ℝ) 60 2).m_lineWidth * dx / (2 * n)
        ∧ (dx ≠ 0 ∨ dy ≠ 0)
        ∧ nx * dx + ny * dy = 0
        ∧ Real.sqrt (nx ^ 2 + ny ^ 2) = |(2 : ℝ)| / 2 := by
  have hd := constructed_coordinates_distinct 3 5 (40 : ℝ) 60 2 0 (by decide) (by norm_num)
    (by norm_num) (by norm_num)
  have hne : (getCoordinates (CMath.mk Real.cos Real.sin Real.sqrt Real.pi)
          (constructed 3 5 (40 : ℝ) 60 2) (0 + 1)).1
        - (getCoordinates (CMath.mk Real.cos Real.sin Real.sqrt Real.pi)
          (constructed 3 5 (40 : ℝ) 60 2) (0 - 1)).1 ≠ 0
      ∨ (getCoordinates (CMath.mk Real.cos Real.sin Real.sqrt Real.pi)
          (constructed 3 5 (40 : ℝ) 60 2) (0 + 1)).2
        - (getCoordinates (CMath.mk Real.cos Real.sin Real.sqrt Real.pi)
          (constructed 3 5 (40 : ℝ) 60 2) (0 - 1)).2 ≠ 0 := by
    by_contra hcon
    push_neg at hcon
    exact hd (Prod.ext (by linarith [hcon.1]) (by linarith [hcon.2]))
  have h := drawSegment_rectangle (constructed 3 5 (40 : ℝ) 60 2) 0 [] _ _ _ _ _ _ _ _ _
    rfl rfl rfl rfl rfl rfl rfl hne
  exact ⟨_, _, _, _, _, _, _, _, _, rfl, rfl, rfl, rfl, rfl, rfl, rfl, hne, h.1, h.2.1⟩

end TurksHead
